import Mathlib

/-!
# Verification of the m8b-slack tool middleware, registry dispatch and streaming engine

This file gives a shallow embedding, in Lean 4, of the parts of the
m8b-slack repository that the verified properties are about:

* `ai/services/tool-middleware.js` — cache-key derivation
  (`generateCacheKey`), the in-memory result cache (`getCachedResult`,
  `setCachedResult`, `cleanupCache`), primary-collection discovery
  (`findPrimaryData`), pagination (`paginateOutput`), the final size
  bound (`ensureSafeSize`), the MCP output compression pipeline
  (`compressMetric`, `compressMetrics`, `compressMonitor`,
  `deduplicateStatusInformation`, `compressMcpTelemetry`,
  `removeEmptyObjects`, `compressMcpOutput`) and the composed
  `executeWithMiddleware` entry point.
* `ai/mcp_registry.js` — host bucketing (`_bucketHostsByServer`) and
  tool-call dispatch (`executeMcpFunctionCall`).
* `ai/services/streaming.js` — the repetition detector
  (`detectRepetition`) and the per-event state machine of `streamOnce`
  (text accumulation with safety cutoffs, and the function-call
  lifecycle handlers).

JavaScript values flowing through this code are JSON values
(the tool arguments are produced by `JSON.parse`, the results by MCP
tool calls), so they are embedded as the inductive `JVal` below.
JavaScript objects are embedded as ordered association lists of fields
(JS objects enumerate string keys in insertion order; none of the keys
appearing in this code base are array-index-like, so the JS
integer-key-first enumeration rule never reorders anything modelled
here).  JavaScript strings are embedded as Lean `String`; all string
data handled by the modelled code is in the Basic Multilingual Plane,
where JS UTF-16 code-unit indexing agrees with code-point indexing.
JavaScript numbers occurring in the modelled code paths are integers
(array lengths, offsets, timestamps), embedded as `Int`/`Nat`.

Asynchronous effects (`await`) in the source are sequential on each
code path modelled here, so the embedding is by ordinary function
composition; fallible calls are embedded as `Except String`.  Mutable
module-level state (the result cache, the host index) is passed
explicitly, together with an explicit `now : Nat` clock replacing
`Date.now()`.
-/

/-! ## JSON values

`JVal` is the embedding of JSON values.  Arrays and objects carry their
own list types (`JArr`, `JObj`) so that every traversal in this file is
structurally recursive and hence computable by `decide`/`rfl`. -/

mutual

/-- A JSON value, as handled by the middleware.  `obj` fields are in
JS insertion order. -/
inductive JVal where
  | null
  | bool (b : Bool)
  | num (n : Int)
  | str (s : String)
  | arr (elems : JArr)
  | obj (fields : JObj)
deriving Repr, DecidableEq

/-- A JSON array: a list of `JVal`. -/
inductive JArr where
  | nil
  | cons (hd : JVal) (tl : JArr)
deriving Repr, DecidableEq

/-- The fields of a JSON object, in insertion order. -/
inductive JObj where
  | nil
  | cons (key : String) (val : JVal) (tl : JObj)
deriving Repr, DecidableEq

end

namespace JArr

/-- The number of elements (JS `array.length`). -/
def length : JArr → Nat
  | .nil => 0
  | .cons _ t => t.length + 1

/-- Convert to a Lean list (for stating theorems). -/
def toList : JArr → List JVal
  | .nil => []
  | .cons h t => h :: t.toList

/-- Build from a Lean list. -/
def ofList : List JVal → JArr
  | [] => .nil
  | h :: t => .cons h (ofList t)

/-- JS `array.slice(start, start + limit)`: drop `start` elements, then
take at most `limit` (out-of-range indices clamp). -/
def slice (start limit : Nat) (l : JArr) : JArr :=
  ofList (((toList l).drop start).take limit)

/-- JS `array.map f`. -/
def map (f : JVal → JVal) : JArr → JArr
  | .nil => .nil
  | .cons h t => .cons (f h) (map f t)

end JArr

namespace JObj

/-- `Object.keys`, in insertion order. -/
def keys : JObj → List String
  | .nil => []
  | .cons k _ t => k :: t.keys

/-- Number of fields (JS `Object.keys(o).length`). -/
def length : JObj → Nat
  | .nil => 0
  | .cons _ _ t => t.length + 1

/-- Property read `o[k]`: the first field named `k` (JS objects never
hold duplicate keys, so "first" is exact). -/
def lookup (k : String) : JObj → Option JVal
  | .nil => none
  | .cons k' v t => if k' = k then some v else lookup k t

/-- JS `delete o[k]` (after an `{ ...o }` copy): remove the field named
`k`.  Embedded as a filter; on JS objects the key is unique. -/
def del (k : String) : JObj → JObj
  | .nil => .nil
  | .cons k' v t => if k' = k then del k t else .cons k' v (del k t)

/-- JS property write `o[k] = v` (or spread-with-override
`{ ...o, k: v }`): replace the value of an existing field in place,
otherwise append the new field at the end. -/
def set (k : String) (v : JVal) : JObj → JObj
  | .nil => .cons k v .nil
  | .cons k' v' t => if k' = k then .cons k' v t else .cons k' v' (set k v t)

/-- Convert to a Lean association list (for stating theorems). -/
def toList : JObj → List (String × JVal)
  | .nil => []
  | .cons k v t => (k, v) :: t.toList

/-- Build from a Lean association list. -/
def ofList : List (String × JVal) → JObj
  | [] => .nil
  | (k, v) :: t => .cons k v (ofList t)

/-- `Object.entries(o).slice(start, start + limit)` as an object again
(used by object-shaped pagination). -/
def sliceFields (start limit : Nat) (fs : JObj) : JObj :=
  ofList (((toList fs).drop start).take limit)

end JObj

namespace JVal

/-- JS truthiness of a JSON value: `null`, `false`, `0` and `""` are
falsy; every object and array is truthy. -/
def truthy : JVal → Bool
  | .null => false
  | .bool b => b
  | .num n => n != 0
  | .str s => s ≠ ""
  | .arr _ => true
  | .obj _ => true

/-- `Array.isArray`. -/
def isArr : JVal → Bool
  | .arr _ => true
  | _ => false

/-- `typeof v === "object" && v !== null` (true for arrays and objects;
`JVal` has no embedded `null`-typed objects besides `.null`). -/
def isObjectType : JVal → Bool
  | .arr _ => true
  | .obj _ => true
  | _ => false

/-- Property read `v[k]` for any value: objects look their field up,
every other value (including arrays indexed by a non-numeric name)
yields `undefined`, embedded as `none`. -/
def getField (k : String) : JVal → Option JVal
  | .obj fs => fs.lookup k
  | _ => none

end JVal

/-! ## JS string primitives used by the modelled code -/

/-- Lexicographic `≤` on character lists (JS string comparison is
lexicographic on UTF-16 code units; on BMP strings this coincides with
code points). -/
def lexLe : List Char → List Char → Bool
  | [], _ => true
  | _ :: _, [] => false
  | a :: as, b :: bs => if a = b then lexLe as bs else decide (a < b)

/-- JS `String` comparison `a <= b`, the order used by
`Array.prototype.sort()` on string arrays. -/
def strLeB (a b : String) : Bool := lexLe a.data b.data

/-- First index at which `needle` occurs in `hay`, or `none`
(JS `hay.indexOf(needle)` returning `-1` is embedded as `none`). -/
def listIndexOf (needle : List Char) : List Char → Option Nat
  | [] => if needle = [] then some 0 else none
  | c :: cs =>
    if needle.isPrefixOf (c :: cs) then some 0
    else match listIndexOf needle cs with
      | some i => some (i + 1)
      | none => none

/-- JS `hay.indexOf(needle)`, as an `Option Nat`. -/
def strIndexOf (needle hay : String) : Option Nat :=
  listIndexOf needle.data hay.data

/-- Insert `a` into the sorted list after every element `≤` it
(the placement a stable sort gives an element arriving later). -/
def insLe (le : α → α → Bool) (a : α) : List α → List α
  | [] => [a]
  | b :: t => if le b a then b :: insLe le a t else a :: b :: t

/-- Stable insertion sort, processing the list left to right.
`Array.prototype.sort(cmp)` is required to be stable and to produce a
`cmp`-sorted array; on such inputs any stable sort computes the same
list, and this one is structurally recursive, hence computable by
`decide`/`rfl`. -/
def stableSortAux (le : α → α → Bool) (acc : List α) : List α → List α
  | [] => acc
  | a :: t => stableSortAux le (insLe le a acc) t

/-- JS `array.sort(cmp)` (with `cmp` as a boolean `≤`). -/
def stableSort (le : α → α → Bool) (l : List α) : List α :=
  stableSortAux le [] l

/-- JS `s.substring(start)` (clamping past the end). -/
def strDrop (s : String) (start : Nat) : String := ⟨s.data.drop start⟩

/-- JS `s.substring(0, stop)`. -/
def strTake (s : String) (stop : Nat) : String := ⟨s.data.take stop⟩

/-- The characters JS `String.prototype.trim` strips: ECMA-262
WhiteSpace (TAB, VT, FF, SP, NBSP, ZWNBSP and the Unicode
Space_Separator category) and LineTerminator (LF, CR, LS, PS). -/
def jsWhitespace (c : Char) : Bool :=
  c = '\t' ∨ c = '\n' ∨ c = Char.ofNat 11 ∨ c = Char.ofNat 12 ∨ c = '\r' ∨
  c = ' ' ∨ c = Char.ofNat 0xA0 ∨ c = Char.ofNat 0x1680 ∨
  (0x2000 ≤ c.toNat ∧ c.toNat ≤ 0x200A) ∨
  c = Char.ofNat 0x2028 ∨ c = Char.ofNat 0x2029 ∨ c = Char.ofNat 0x202F ∨
  c = Char.ofNat 0x205F ∨ c = Char.ofNat 0x3000 ∨ c = Char.ofNat 0xFEFF

/-- Truthiness of JS `s.trim()`: the trimmed string is nonempty iff
some character of `s` is not whitespace. -/
def trimTruthy (s : String) : Bool := s.data.any (fun c => ¬ jsWhitespace c)

/-! ## `JSON.stringify`

`ai/services/tool-middleware.js` serializes values in two ways:
plainly (`JSON.stringify(output)`, used for size measurement in
`ensureSafeSize`) and with an *array replacer*
(`JSON.stringify(normalizedArgs, sortedKeys)` in `generateCacheKey`).
Per ECMA-262, an array replacer makes every object at every depth
serialize exactly the properties named in the replacer array, in the
replacer array's order; array elements are not filtered.  The replacer
serialization is embedded as the value transformation `applyReplacer`
followed by the plain serializer, which produces the identical
string. -/

/-- Lowercase hex digit, as emitted by `JSON.stringify` in `\u00..`
escapes. -/
def hexDigit (n : Nat) : Char :=
  if n < 10 then Char.ofNat (48 + n) else Char.ofNat (87 + n)

/-- `JSON.stringify`'s escaping of one string character. -/
def escChar (c : Char) : List Char :=
  if c = '"' then ['\\', '"']
  else if c = '\\' then ['\\', '\\']
  else if c = '\n' then ['\\', 'n']
  else if c = '\r' then ['\\', 'r']
  else if c = '\t' then ['\\', 't']
  else if c = Char.ofNat 8 then ['\\', 'b']
  else if c = Char.ofNat 12 then ['\\', 'f']
  else if c.toNat < 32 then
    ['\\', 'u', '0', '0', hexDigit (c.toNat / 16), hexDigit (c.toNat % 16)]
  else [c]

/-- `JSON.stringify` of a string value (quoted and escaped). -/
def jsonQuote (s : String) : String :=
  ⟨'"' :: (s.data.map escChar).flatten ++ ['"']⟩

mutual

/-- `JSON.stringify(v)` (no replacer): objects serialize their own
fields in insertion order. -/
def JVal.stringify : JVal → String
  | .null => "null"
  | .bool b => if b then "true" else "false"
  | .num n => toString n
  | .str s => jsonQuote s
  | .arr l => "[" ++ JArr.stringifyElems l ++ "]"
  | .obj fs => "\x7b" ++ JObj.stringifyFields fs ++ "\x7d"

/-- Comma-separated serialization of array elements. -/
def JArr.stringifyElems : JArr → String
  | .nil => ""
  | .cons h .nil => h.stringify
  | .cons h (.cons h' t) => h.stringify ++ "," ++ JArr.stringifyElems (.cons h' t)

/-- Comma-separated serialization of object fields. -/
def JObj.stringifyFields : JObj → String
  | .nil => ""
  | .cons k v .nil => jsonQuote k ++ ":" ++ v.stringify
  | .cons k v (.cons k' v' t) =>
    jsonQuote k ++ ":" ++ v.stringify ++ "," ++ JObj.stringifyFields (.cons k' v' t)

end

/-- For each replacer key (in replacer order), keep the object's field
of that name if present — the field set and order an array replacer
imposes on every serialized object. -/
def JObj.selectByReplacer (fs : JObj) : List String → JObj
  | [] => .nil
  | k :: ks => match fs.lookup k with
    | some v => .cons k v (fs.selectByReplacer ks)
    | none => fs.selectByReplacer ks

mutual

/-- The value transformation an array replacer `K` performs during
`JSON.stringify(v, K)`: at every object, keep exactly the fields named
in `K`, in `K`'s order; recurse everywhere; arrays are unaffected. -/
def JVal.applyReplacer (K : List String) : JVal → JVal
  | .arr l => .arr (JArr.applyReplacer K l)
  | .obj fs => .obj ((JObj.applyReplacerVals K fs).selectByReplacer K)
  | v => v

/-- `applyReplacer` on each array element. -/
def JArr.applyReplacer (K : List String) : JArr → JArr
  | .nil => .nil
  | .cons h t => .cons (h.applyReplacer K) (JArr.applyReplacer K t)

/-- `applyReplacer` on each field value. -/
def JObj.applyReplacerVals (K : List String) : JObj → JObj
  | .nil => .nil
  | .cons k v t => .cons k (v.applyReplacer K) (JObj.applyReplacerVals K t)

end

/-! The spec's notion of *equivalent argument objects* (same content,
any key insertion order): a decidable structural equivalence on JSON
values.  Arrays compare elementwise (JSON arrays are ordered); objects
compare by key multiset and by looking each field of the left object up
in the right one. -/

mutual

/-- Spec-side equivalence of JSON values, used to state C3. -/
def JVal.equivB : JVal → JVal → Bool
  | .null, .null => true
  | .bool a, .bool b => a = b
  | .num a, .num b => a = b
  | .str a, .str b => a = b
  | .arr a, .arr b => JArr.equivB a b
  | .obj a, .obj b => a.keys.isPerm b.keys && JObj.fieldsMatch a b
  | _, _ => false

/-- Elementwise equivalence of JSON arrays. -/
def JArr.equivB : JArr → JArr → Bool
  | .nil, .nil => true
  | .cons h t, .cons h' t' => JVal.equivB h h' && JArr.equivB t t'
  | _, _ => false

/-- Every field of the left object is matched, by name, by an
equivalent field of the right object. -/
def JObj.fieldsMatch : JObj → JObj → Bool
  | .nil, _ => true
  | .cons k v t, b =>
    (match JObj.lookup k b with
     | some w => JVal.equivB v w
     | none => false) && JObj.fieldsMatch t b

end

/-! ## Tool middleware: cache-key derivation (`generateCacheKey`) -/

/-- Middleware constant `DEFAULT_MAX_RESULTS`. -/
def DEFAULT_MAX_RESULTS : Nat := 100

/-- Middleware constant `HARD_MAX_OUTPUT_CHARS`. -/
def HARD_MAX_OUTPUT_CHARS : Nat := 1000000

/-- Middleware constant `RESULT_CACHE_TTL_MS` (5 minutes). -/
def RESULT_CACHE_TTL_MS : Nat := 5 * 60 * 1000

/-- Middleware constant `MAX_CACHE_ENTRIES`. -/
def MAX_CACHE_ENTRIES : Nat := 100

/-- The code hashes the preimage `toolName:sortedArgs` with SHA-256 and
keeps the first 16 hex characters.  A hash is a deterministic function
of its input, and every theorem below uses only that (cache-key
*equalities* are always derived from preimage equalities; no theorem
relies on two distinct preimages hashing differently), so the model
keeps the preimage itself as the key. -/
def sha256Key (preimage : String) : String := preimage

/-- `delete normalizedArgs.offset; delete normalizedArgs.maxResults;
delete normalizedArgs._cacheId` on a copy of the arguments. -/
def stripPaginationArgs (args : JObj) : JObj :=
  ((args.del "offset").del "maxResults").del "_cacheId"

/-- `generateCacheKey(toolName, args)`: strip the pagination fields,
serialize with the sorted top-level key list as array replacer, and
hash together with the tool name. -/
def generateCacheKey (toolName : String) (args : JObj) : String :=
  let normalizedArgs := stripPaginationArgs args
  let K := stableSort strLeB normalizedArgs.keys
  let sortedArgs := (JVal.applyReplacer K (.obj normalizedArgs)).stringify
  sha256Key (toolName ++ ":" ++ sortedArgs)

/-! ## Tool middleware: the in-memory result cache

`resultCache` is a module-level JS `Map`.  A `Map` enumerates entries
in insertion order, `set` on an existing key updates the value in
place, and `delete` removes the entry, so the cache is embedded as an
insertion-ordered association list with exactly those operations.
`Date.now()` is the explicit parameter `now`. -/

/-- The `data` stored for a cache id by `executeWithMiddleware`:
`{ result, fileId, fileName }` (the latter two are `undefined` when no
file was uploaded). -/
structure CacheData where
  result : JVal
  fileId : Option String
  fileName : Option String
deriving Repr, DecidableEq

/-- One `resultCache` entry: `{ data, timestamp, toolName }`. -/
structure CacheEntry where
  data : CacheData
  timestamp : Nat
  toolName : String
deriving Repr, DecidableEq

/-- The `resultCache` map, in insertion order. -/
abbrev ResultCache := List (String × CacheEntry)

/-- `Map.get`. -/
def cacheGet (cacheId : String) : ResultCache → Option CacheEntry
  | [] => none
  | (k, e) :: t => if k = cacheId then some e else cacheGet cacheId t

/-- `Map.delete`. -/
def cacheDelete (cacheId : String) (c : ResultCache) : ResultCache :=
  c.filter (fun kv => kv.1 ≠ cacheId)

/-- `Map.set`: update in place if the key exists, else append. -/
def cacheSet (cacheId : String) (e : CacheEntry) : ResultCache → ResultCache
  | [] => [(cacheId, e)]
  | (k, e') :: t =>
    if k = cacheId then (k, e) :: t else (k, e') :: cacheSet cacheId e t

/-- `getCachedResult(cacheId)`: a hit returns the entry's data; an
expired entry is deleted and reported as a miss.  Returns the data (if
any) together with the possibly-updated cache. -/
def getCachedResult (cacheId : String) (now : Nat) (c : ResultCache) :
    Option CacheData × ResultCache :=
  match cacheGet cacheId c with
  | none => (none, c)
  | some entry =>
    if RESULT_CACHE_TTL_MS < now - entry.timestamp then
      (none, cacheDelete cacheId c)
    else
      (some entry.data, c)

/-- The comparator `(a, b) => a[1].timestamp - b[1].timestamp` used by
`cleanupCache`, as a boolean `≤`. -/
def entryLe (a b : String × CacheEntry) : Bool :=
  a.2.timestamp ≤ b.2.timestamp

/-- `cleanupCache()`: drop every expired entry; if the cache still
holds at least `MAX_CACHE_ENTRIES` entries, sort by timestamp and
delete the first `⌊MAX_CACHE_ENTRIES / 2⌋` (oldest) entries. -/
def cleanupCache (now : Nat) (c : ResultCache) : ResultCache :=
  let c1 := c.filter (fun kv => ¬ RESULT_CACHE_TTL_MS < now - kv.2.timestamp)
  if MAX_CACHE_ENTRIES ≤ c1.length then
    let entries := stableSort entryLe c1
    let toRemove := entries.take (MAX_CACHE_ENTRIES / 2)
    c1.filter (fun kv => kv.1 ∉ toRemove.map Prod.fst)
  else c1

/-- `setCachedResult(cacheId, toolName, data)`: clean up first when the
cache is at capacity, then store the entry with the current time. -/
def setCachedResult (cacheId toolName : String) (data : CacheData)
    (now : Nat) (c : ResultCache) : ResultCache :=
  let c' := if MAX_CACHE_ENTRIES ≤ c.length then cleanupCache now c else c
  cacheSet cacheId ⟨data, now, toolName⟩ c'

/-! ## Tool middleware: primary-collection discovery and pagination -/

/-- The prioritized field names `findPrimaryData` scans. -/
def knownFields : List String :=
  ["items", "results", "data", "records", "entries", "list",
   "hosts", "metrics", "series", "events", "alerts"]

/-- `findPrimaryData`'s per-field test: a nonempty array gives
`(field, data, isObject := false)`; a truthy non-array object with at
least one key gives `(field, data, isObject := true)`. -/
def primaryOfField (fs : JObj) (field : String) : Option (String × JVal × Bool) :=
  match fs.lookup field with
  | some (.arr l) => if 0 < l.length then some (field, .arr l, false) else none
  | some (.obj o) => if 0 < o.length then some (field, .obj o, true) else none
  | _ => none

/-- The fallback scan: the first own field holding an array of more
than 5 elements. -/
def primaryFallback : JObj → Option (String × JVal × Bool)
  | .nil => none
  | .cons k (.arr l) t =>
    if 5 < l.length then some (k, .arr l, false) else primaryFallback t
  | .cons _ _ t => primaryFallback t

/-- `findPrimaryData(output)`: try the known field names in order, then
the fallback scan; non-objects have no primary data.  (A JS array as
`output` would be scanned over its index keys; no tool output takes
that shape and no claim exercises it, so the embedding scans object
fields.) -/
def findPrimaryData : JVal → Option (String × JVal × Bool)
  | .obj fs =>
    (knownFields.firstM (primaryOfField fs)).orElse (fun _ => primaryFallback fs)
  | _ => none

/-- Pagination hint text for a page with more data available. -/
def hintMore (returned total : Nat) (key cacheId : String) (nextOffset : Nat) : String :=
  "Showing " ++ toString returned ++ " of " ++ toString total ++ " " ++ key ++
  ". To get more, call this tool again with _cacheId=\x22" ++ cacheId ++
  "\x22 and offset=" ++ toString nextOffset ++ "."

/-- Pagination hint text when everything was shown. -/
def hintAll (total : Nat) (key : String) : String :=
  "Showing all " ++ toString total ++ " " ++ key ++ "."

/-- The `_pagination` metadata block attached to a paginated output. -/
def paginationBlock (offset limit returned total : Nat) (hasMore : Bool)
    (key cacheId : String) : JVal :=
  .obj (.cons "offset" (.num offset)
    (.cons "limit" (.num limit)
      (.cons "returned" (.num returned)
        (.cons "total" (.num total)
          (.cons "hasMore" (.bool hasMore)
            (.cons "nextOffset" (if hasMore then .num (offset + returned) else .null)
              (.cons "field" (.str key)
                (.cons "hint"
                  (.str (if hasMore then hintMore returned total key cacheId (offset + returned)
                         else hintAll total key))
                  .nil))))))))

/-- `paginateOutput(output, offset, limit, cacheId)`: returns the
(possibly) paginated output and the `paginated` flag.  If no primary
collection is found, or the collection fits in one page at offset 0,
the output passes through unchanged; otherwise the primary field is
replaced in place by its `[offset, offset+limit)` slice and a
`_pagination` block is attached. -/
def paginateOutput (output : JVal) (offset limit : Nat) (cacheId : String) :
    JVal × Bool :=
  match findPrimaryData output with
  | none => (output, false)
  | some (key, data, isObject) =>
    let total := if isObject then
        match data with | .obj o => o.length | _ => 0
      else
        match data with | .arr l => l.length | _ => 0
    if total ≤ limit ∧ offset = 0 then (output, false)
    else
      let paginatedData : JVal := if isObject then
          match data with | .obj o => .obj (o.sliceFields offset limit) | v => v
        else
          match data with | .arr l => .arr (l.slice offset limit) | v => v
      let returned := match paginatedData with
        | .obj o => o.length
        | .arr l => l.length
        | _ => 0
      let hasMore := decide (offset + returned < total)
      let out1 := match output with
        | .obj fs => JVal.obj (fs.set key paginatedData)
        | v => v
      let out2 := match out1 with
        | .obj fs =>
          JVal.obj (fs.set "_pagination"
            (paginationBlock offset limit returned total hasMore key cacheId))
        | v => v
      (out2, true)

/-! ## Tool middleware: final size bound (`ensureSafeSize`) -/

/-- JS string interpolation `${v}` for the values reaching the
`ensureSafeSize` hint (`fileRef.fileName` is a string or absent). -/
def jsDisplay : Option JVal → String
  | some (.str s) => s
  | some (.num n) => toString n
  | some (.bool b) => if b then "true" else "false"
  | some .null => "null"
  | some (.arr _) => ""
  | some (.obj _) => "[object Object]"
  | none => "undefined"

/-- `ensureSafeSize(output, toolName)`: outputs whose serialization
fits under `HARD_MAX_OUTPUT_CHARS` pass through; larger ones are
replaced by a structured too-large error that preserves `_file`. -/
def ensureSafeSize (output : JVal) (_toolName : String) : JVal :=
  let outputStr := output.stringify
  if outputStr.length ≤ HARD_MAX_OUTPUT_CHARS then output
  else
    let fileRef := output.getField "_file"
    let hint := match fileRef with
      | some fr =>
        "Full data uploaded as \x22" ++ jsDisplay (fr.getField "fileName") ++
        "\x22. Use code_interpreter to read and analyze the JSON file."
      | none => "Use smaller maxResults (e.g., 10-50) or more specific query parameters."
    .obj (.cons "ok" (.bool false)
      (.cons "error" (.str ("Output too large for inline (" ++
        toString outputStr.length ++ " chars)"))
        ((match fileRef with
          | some fr => JObj.cons "_file" fr (.cons "hint" (.str hint) .nil)
          | none => JObj.cons "hint" (.str hint) .nil))))

/-! ## Tool middleware: MCP output compression -/

/-- `METRIC_FIELDS_TO_REMOVE`. -/
def METRIC_FIELDS_TO_REMOVE : List String :=
  ["resetMetricsTime", "name", "updated", "type", "collectTime",
   "previousCollectTime", "previousValue"]

/-- `MONITOR_FIELDS_TO_REMOVE`. -/
def MONITOR_FIELDS_TO_REMOVE : List String :=
  ["discoveryTime", "identifyingAttributeKeys"]

/-- `FALSE_FLAGS_TO_REMOVE`. -/
def FALSE_FLAGS_TO_REMOVE : List String :=
  ["connector", "endpoint", "endpointHost", "is_endpoint"]

mutual

/-- `removeEmptyObjects(obj)`: primitives pass through; arrays and
objects are cleaned recursively and vanish (JS `undefined`, embedded as
`none`) when nothing remains. -/
def removeEmptyObjects : JVal → Option JVal
  | .arr l =>
    let cleaned := removeEmptyArr l
    if 0 < cleaned.length then some (.arr cleaned) else none
  | .obj fs =>
    let cleaned := removeEmptyObj fs
    if 0 < cleaned.length then some (.obj cleaned) else none
  | v => some v

/-- `obj.map(removeEmptyObjects).filter(item => item !== undefined)`. -/
def removeEmptyArr : JArr → JArr
  | .nil => .nil
  | .cons h t =>
    match removeEmptyObjects h with
    | some h' => .cons h' (removeEmptyArr t)
    | none => removeEmptyArr t

/-- The object branch of `removeEmptyObjects`: keep each field whose
cleaned value is defined. -/
def removeEmptyObj : JObj → JObj
  | .nil => .nil
  | .cons k v t =>
    match removeEmptyObjects v with
    | some v' => .cons k v' (removeEmptyObj t)
    | none => removeEmptyObj t

end

/-- The `messageMarker` of `deduplicateStatusInformation`. -/
def messageMarker : String := "\n\nMessage:\n====================================\n"

/-- The `conclusionMarker` of `deduplicateStatusInformation`. -/
def conclusionMarker : String := "\n====================================\n\nConclusion:"

/-- The prefix length cut off the conclusion part
(`"\n====================================\n\n".length`). -/
def conclusionCutLen : Nat := ("\n====================================\n\n" : String).length

/-- `deduplicateStatusInformation(statusInfo)`: when both markers
occur, keep everything before the first `messageMarker` plus the text
from `"Conclusion:"` on; otherwise return the string unchanged.
(The JS falsy-guard for the empty string returns it unchanged too.) -/
def deduplicateStatusInformation (statusInfo : String) : String :=
  if statusInfo = "" then statusInfo
  else
    match strIndexOf messageMarker statusInfo, strIndexOf conclusionMarker statusInfo with
    | some messageIdx, some conclusionIdx =>
      strTake statusInfo messageIdx ++ "\n\n" ++
        strDrop statusInfo (conclusionIdx + conclusionCutLen)
    | _, _ => statusInfo

/-- `Object.entries` of a JS array: its elements under their decimal
index keys. -/
def objEntriesOfArr (i : Nat) : JArr → JObj
  | .nil => .nil
  | .cons h t => .cons (toString i) h (objEntriesOfArr (i + 1) t)

/-- The field filter of `compressMetric`: drop the
`METRIC_FIELDS_TO_REMOVE` keys, keep everything else unchanged. -/
def compressMetricFields : JObj → JObj
  | .nil => .nil
  | .cons k v t =>
    if k ∈ METRIC_FIELDS_TO_REMOVE then compressMetricFields t
    else .cons k v (compressMetricFields t)

/-- `compressMetric(metric)`: non-objects pass through; objects lose
their verbose fields.  (A JS array is `typeof "object"` and is rebuilt
from its `Object.entries`, i.e. as an index-keyed object.) -/
def compressMetric : JVal → JVal
  | .obj fs => .obj (compressMetricFields fs)
  | .arr l => .obj (compressMetricFields (objEntriesOfArr 0 l))
  | v => v

/-- `compressMetrics`' loop: `compressed[name] = compressMetric(data)`
for every entry. -/
def compressMetricsFields : JObj → JObj
  | .nil => .nil
  | .cons k v t => .cons k (compressMetric v) (compressMetricsFields t)

/-- `compressMetrics(metrics)`: compress every metric of the
name-keyed map; non-objects pass through. -/
def compressMetrics : JVal → JVal
  | .obj fs => .obj (compressMetricsFields fs)
  | .arr l => .obj (compressMetricsFields (objEntriesOfArr 0 l))
  | v => v

/-- `value?.StatusInformation` is truthy. -/
def hasTruthySI (v : JVal) : Bool :=
  match v.getField "StatusInformation" with
  | some si => si.truthy
  | none => false

/-- The per-field loop of `compressMonitor`.  A truthy *non-string*
`StatusInformation` makes the JS code throw a `TypeError`
(`deduplicateStatusInformation`/`.trim` of a non-string); the C5
theorem excludes such inputs by the `siWellFormed` hypothesis, and the
embedding drops the field there (a branch outside the theorem's
domain). -/
def compressMonitorFields : JObj → JObj
  | .nil => .nil
  | .cons k v t =>
    if k ∈ MONITOR_FIELDS_TO_REMOVE then compressMonitorFields t
    else if k ∈ FALSE_FLAGS_TO_REMOVE ∧ v = .bool false then compressMonitorFields t
    else if k = "metrics" ∧ v.truthy ∧ v.isObjectType then
      match compressMetrics v with
      | .obj o =>
        if 0 < o.length then .cons k (.obj o) (compressMonitorFields t)
        else compressMonitorFields t
      | _ => compressMonitorFields t
    else if k = "legacyTextParameters" ∧ hasTruthySI v then
      match v.getField "StatusInformation" with
      | some (.str s) =>
        let deduped := deduplicateStatusInformation s
        if deduped ≠ "" ∧ trimTruthy deduped then
          .cons k (match v with
            | .obj o => .obj (o.set "StatusInformation" (.str deduped))
            | w => w)
            (compressMonitorFields t)
        else compressMonitorFields t
      | _ => compressMonitorFields t
    else .cons k v (compressMonitorFields t)

/-- `compressMonitor(monitor)`: non-objects pass through; objects go
through the field loop.  (A JS array is rebuilt from its
`Object.entries`, like in `compressMetric`.) -/
def compressMonitor : JVal → JVal
  | .obj fs => .obj (compressMonitorFields fs)
  | .arr l => .obj (compressMonitorFields (objEntriesOfArr 0 l))
  | v => v

/-- `value.map(compressMonitor)` for a `monitors` array. -/
def mapCompressMonitor : JArr → JArr
  | .nil => .nil
  | .cons h t => .cons (compressMonitor h) (mapCompressMonitor t)

mutual

/-- `compressMcpTelemetry(data)`: arrays recurse elementwise; in
objects, a `monitors` array gets each monitor compressed, other
object-typed values recurse, primitives pass through. -/
def compressMcpTelemetry : JVal → JVal
  | .arr l => .arr (compressTelemetryArr l)
  | .obj fs => .obj (compressTelemetryObj fs)
  | v => v

/-- `data.map(compressMcpTelemetry)`. -/
def compressTelemetryArr : JArr → JArr
  | .nil => .nil
  | .cons h t => .cons (compressMcpTelemetry h) (compressTelemetryArr t)

/-- The per-field loop of `compressMcpTelemetry` on an object. -/
def compressTelemetryObj : JObj → JObj
  | .nil => .nil
  | .cons k v t =>
    if k = "monitors" ∧ v.isArr then
      .cons k (match v with | .arr l => .arr (mapCompressMonitor l) | w => w)
        (compressTelemetryObj t)
    else if v.isObjectType then
      .cons k (compressMcpTelemetry v) (compressTelemetryObj t)
    else .cons k v (compressTelemetryObj t)

end

/-! The hypothesis under which the compression pipeline is idempotent
(C5): every string reachable in the value deduplicates to a
deduplication fixpoint.  `deduplicateStatusInformation` itself is not
idempotent on strings holding two message/conclusion marker pairs, and
that is the transform's only source of non-idempotence. -/

mutual

/-- Every string leaf `s` satisfies `dedup (dedup s) = dedup s`. -/
def JVal.dedupStable : JVal → Bool
  | .str s => deduplicateStatusInformation (deduplicateStatusInformation s) =
      deduplicateStatusInformation s
  | .arr l => JArr.dedupStable l
  | .obj fs => JObj.dedupStable fs
  | _ => true

/-- `dedupStable` on every array element. -/
def JArr.dedupStable : JArr → Bool
  | .nil => true
  | .cons h t => JVal.dedupStable h && JArr.dedupStable t

/-- `dedupStable` on every field value. -/
def JObj.dedupStable : JObj → Bool
  | .nil => true
  | .cons _ v t => JVal.dedupStable v && JObj.dedupStable t

end

/-! The compression pipeline's implicit input contract: the source
calls `deduplicateStatusInformation(value.StatusInformation)` (and
`.trim()` on its result) whenever a `legacyTextParameters` field has a
truthy `StatusInformation`, so a truthy *non-string* `StatusInformation`
makes the program throw a `TypeError`.  `siWellFormed` states that no
such field occurs anywhere in the value; the C5 theorem assumes it, so
the embedding's behavior on throwing inputs is outside its domain. -/

mutual

/-- Every truthy `StatusInformation` under a `legacyTextParameters`
field, at any depth, is a string. -/
def JVal.siWellFormed : JVal → Bool
  | .arr l => JArr.siWellFormed l
  | .obj fs => JObj.siWellFormed fs
  | _ => true

/-- `siWellFormed` on every array element. -/
def JArr.siWellFormed : JArr → Bool
  | .nil => true
  | .cons h t => JVal.siWellFormed h && JArr.siWellFormed t

/-- `siWellFormed` on every field: a `legacyTextParameters` field with
a truthy `StatusInformation` must hold it as a string. -/
def JObj.siWellFormed : JObj → Bool
  | .nil => true
  | .cons k v t =>
    (if k = "legacyTextParameters" ∧ hasTruthySI v = true then
      (match v.getField "StatusInformation" with
       | some (.str _) => true
       | _ => false)
     else true) && JVal.siWellFormed v && JObj.siWellFormed t

end

/-- `compressMcpOutput(output, toolName)`: falsy or non-object outputs
pass through; otherwise apply telemetry compression, then remove empty
objects throughout (`removeEmptyObjects(compressed) || {}`). -/
def compressMcpOutput (output : JVal) (_toolName : String) : JVal :=
  if ¬ (output.truthy ∧ output.isObjectType) then output
  else
    match removeEmptyObjects (compressMcpTelemetry output) with
    | some c => if c.truthy then c else .obj .nil
    | none => .obj .nil

/-! ## Tool middleware: `executeWithMiddleware`

The modelled configuration carries no `openaiClient`/`fileTracking`
(`uploadOutputAsFile` is network and file I/O), so `uploadedFile` is
`null`, cached entries carry no `fileId`/`fileName`, and no `_file`
reference is attached on the execution path — exactly the code's
behavior when `options` has no client.  The executor is the supplied
`(name, args) => result` function; a thrown exception is embedded as
`.error` carrying the JS `String(e)` rendering. -/

/-- Truthiness of a possibly-absent property value (JS `o._pagination`
used as a condition). -/
def optTruthy : Option JVal → Bool
  | some v => v.truthy
  | none => false

/-- Property write on the current output value (the modelled code only
writes properties of object-shaped outputs). -/
def jvSetField (k : String) (v : JVal) : JVal → JVal
  | .obj fs => .obj (fs.set k v)
  | w => w

/-- The structured `{ ok: false, error: String(e) }` result for a
caught executor exception. -/
def errorResult (msg : String) : JVal :=
  .obj (.cons "ok" (.bool false) (.cons "error" (.str msg) .nil))

/-- An `undefined` optional string field, embedded as `null` (the
field is only ever read together with a present `fileId`). -/
def optStr : Option String → JVal
  | some s => .str s
  | none => .null

/-- Result of one `executeWithMiddleware` call: the returned output,
the updated module-level cache, and whether the underlying executor
was invoked (instrumentation recording that control reached the
`executor(name, cleanArgs)` call). -/
structure MWResult where
  output : JVal
  cache : ResultCache
  invoked : Bool
deriving Repr, DecidableEq

/-- The effective page size: `args.maxResults` when it is a positive
number, else `DEFAULT_MAX_RESULTS`. -/
def effectiveMaxResults (args : JObj) : Nat :=
  match args.lookup "maxResults" with
  | some (.num n) => if 0 < n then n.toNat else DEFAULT_MAX_RESULTS
  | _ => DEFAULT_MAX_RESULTS

/-- The effective offset: `args.offset` when it is a non-negative
number, else `0`. -/
def effectiveOffset (args : JObj) : Nat :=
  match args.lookup "offset" with
  | some (.num n) => if 0 ≤ n then n.toNat else 0
  | _ => 0

/-- `args?._cacheId || generateCacheKey(name, args)`.  The middleware
always issues string cache ids, so a truthy non-string `_cacheId`
(which nothing in the repository produces) is treated as absent. -/
def effectiveCacheId (name : String) (args : JObj) : String :=
  match args.lookup "_cacheId" with
  | some (.str s) => if s ≠ "" then s else generateCacheKey name args
  | _ => generateCacheKey name args

/-- The size of the primary data collection found in a result
(`primary ? (primary.isObject ? keys.length : data.length) : 0`). -/
def primarySize (result : JVal) : Nat :=
  match findPrimaryData result with
  | some (_, d, true) => match d with | .obj o => o.length | _ => 0
  | some (_, d, false) => match d with | .arr l => l.length | _ => 0
  | none => 0

/-- `executeWithMiddleware(name, args, executor, options)`. -/
def executeWithMiddleware (name : String) (args : JObj)
    (executor : JObj → Except String JVal) (now : Nat) (cache : ResultCache) :
    MWResult :=
  let maxResults : Nat := effectiveMaxResults args
  let offset : Nat := effectiveOffset args
  let cacheId := effectiveCacheId name args
  match getCachedResult cacheId now cache with
  | (some cachedData, cache') =>
    let paginatedOutput := (paginateOutput cachedData.result offset maxResults cacheId).1
    let withFile := match cachedData.fileId with
      | some fid =>
        jvSetField "_file"
          (.obj (.cons "fileId" (.str fid)
            (.cons "fileName" (optStr cachedData.fileName)
              (.cons "hint"
                (.str ("Full data available in file \x22" ++
                  jsDisplay (cachedData.fileName.map JVal.str) ++
                  "\x22. Use code_interpreter to analyze."))
                .nil))))
          paginatedOutput
      | none => paginatedOutput
    ⟨ensureSafeSize withFile name, cache', false⟩
  | (none, cache') =>
    let cleanArgs := stripPaginationArgs args
    match executor cleanArgs with
    | .error e => ⟨errorResult e, cache', true⟩
    | .ok result0 =>
      let result := compressMcpOutput result0 name
      let dataSize := primarySize result
      let cache'' :=
        if maxResults < dataSize ∨ DEFAULT_MAX_RESULTS < dataSize then
          setCachedResult cacheId name ⟨result, none, none⟩ now cache'
        else cache'
      let po := paginateOutput result offset maxResults cacheId
      let withCid :=
        if po.2 && optTruthy (po.1.getField "_pagination") then
          jvSetField "_cacheId" (.str cacheId) po.1
        else po.1
      ⟨ensureSafeSize withCid name, cache'', true⟩

/-! ## MCP registry: host bucketing and dispatch (`ai/mcp_registry.js`)

`state.hosts` is a JS `Map` from alias key to host entry, embedded as
an insertion-ordered association list.  The JSON-RPC call
`server.client.send('tools/call', { name, arguments })` is abstracted
as the `send` oracle (label of the owning server, arguments passed).
Note that `_bucketHostsByServer` stores the *host-index entry* as
`server`, and host-index entries are built without a `client` field, so
in the running code each per-bucket call in fact throws
(`server.client` is `undefined`) and is caught, yielding an
`ok: false` record; an always-failing `send` oracle reproduces exactly
that, and no claim depends on the non-empty-bucket path. -/

/-- One host-index entry
(`{ key, server_label, server_url, attributes, protocols }`). -/
structure HostEntry where
  key : String
  server_label : String
  server_url : String
  attributes : JVal
  protocols : JVal
deriving Repr, DecidableEq

/-- The `state.hosts` map. -/
abbrev HostIndex := List (String × HostEntry)

/-- `state.hosts.get(h)`.  A JS `Map` keyed by strings yields
`undefined` for a non-string lookup value. -/
def hostsGet (index : HostIndex) : JVal → Option HostEntry
  | .str s => (index.find? (fun kv => kv.1 = s)).map Prod.snd
  | _ => none

/-- One bucket of `_bucketHostsByServer`:
`{ server: entry, hosts: [...] }`. -/
structure ServerBucket where
  server : HostEntry
  hosts : List JVal
deriving Repr, DecidableEq

/-- `buckets.get(key).hosts.push(h)` with map-insertion of an absent
bucket first. -/
def bucketsInsert (label : String) (entry : HostEntry) (h : JVal) :
    List (String × ServerBucket) → List (String × ServerBucket)
  | [] => [(label, ⟨entry, [h]⟩)]
  | (k, b) :: t =>
    if k = label then (k, ⟨b.server, b.hosts ++ [h]⟩) :: t
    else (k, b) :: bucketsInsert label entry h t

/-- `_bucketHostsByServer(hosts)`: drop unknown identifiers, group the
rest by the owning server's label (bucket order is
first-encounter order, as for a JS `Map`). -/
def bucketHostsByServer (index : HostIndex) (hosts : List JVal) :
    List (String × ServerBucket) :=
  hosts.foldl
    (fun buckets h =>
      match hostsGet index h with
      | none => buckets
      | some entry => bucketsInsert entry.server_label entry h buckets)
    []

/-- `getAggregatedHosts()`: one object keyed by every alias, with
`{ server_label, server_url, attributes, protocols }` values. -/
def getAggregatedHosts : HostIndex → JObj
  | [] => .nil
  | (k, e) :: t =>
    .cons k
      (.obj (.cons "server_label" (.str e.server_label)
        (.cons "server_url" (.str e.server_url)
          (.cons "attributes" e.attributes
            (.cons "protocols" e.protocols .nil)))))
      (getAggregatedHosts t)

/-- One `{ server_label, ok: true, result }` record. -/
def bucketOkRecord (label : String) (res : JVal) : JVal :=
  .obj (.cons "server_label" (.str label)
    (.cons "ok" (.bool true) (.cons "result" res .nil)))

/-- One `{ server_label, ok: false, error: String(e) }` record. -/
def bucketErrRecord (label : String) (e : String) : JVal :=
  .obj (.cons "server_label" (.str label)
    (.cons "ok" (.bool false) (.cons "error" (.str e) .nil)))

/-- `Array.isArray(args?.hosts) ? args.hosts : (args?.host ? [args.host] : [])`:
the host identifiers a non-meta call requests. -/
def requestedHosts (args : JObj) : List JVal :=
  match args.lookup "hosts" with
  | some (.arr l) => l.toList
  | _ => match args.lookup "host" with
    | some h => if h.truthy then [h] else []
    | none => []

/-- `executeMcpFunctionCall(name, args)`.  Returns the result value
together with the list of performed provider calls (owning server
label, passed arguments) — instrumentation recording each
`server.client.send('tools/call', …)` reached.  The `SearchHost`
branch builds its result by `new RegExp` matching; it performs no
provider call and returns before dispatch, so it is abstracted as the
`searchHost` oracle (no theorem exercises it). -/
def executeMcpFunctionCall (name : String) (args : JObj) (index : HostIndex)
    (send : String → JObj → Except String JVal)
    (searchHost : JObj → JVal) : JVal × List (String × JObj) :=
  if name = "ListHosts" then
    (.obj (.cons "ok" (.bool true)
      (.cons "hosts" (.obj (getAggregatedHosts index)) .nil)), [])
  else if name = "SearchHost" then
    (searchHost args, [])
  else
    let hosts : List JVal := requestedHosts args
    let buckets := bucketHostsByServer index hosts
    let folded := buckets.foldl
      (fun (acc : List JVal × List (String × JObj)) b =>
        let label := b.2.server.server_label
        let passArgs := args.set "hosts" (.arr (JArr.ofList b.2.hosts))
        match send label passArgs with
        | .ok res => (acc.1 ++ [bucketOkRecord label res], acc.2 ++ [(label, passArgs)])
        | .error e => (acc.1 ++ [bucketErrRecord label e], acc.2 ++ [(label, passArgs)]))
      ([], [])
    (.obj (.cons "ok" (.bool true)
      (.cons "results" (.arr (JArr.ofList folded.1)) .nil)), folded.2)

/-! ## Streaming turn engine (`ai/services/streaming.js`)

`streamOnce` iterates `for await (const evt of stream)`; the event
stream is embedded as a `List StreamEvent` and the loop as a fold over
an explicit state.  `break` is embedded by the `broke` flag: once set,
every remaining event leaves the state unchanged, which is exactly
what leaving the loop does to the accumulated state.  Status/delivery
callbacks (`setStatus`, `onStreamStart`, `onTextChunk`), diagnostics
counters other than the text-delta counter, and the
file/container-tracking are side effects with no bearing on the
modelled result fields and are not part of the state.  The engine
never throws on this path: the fold is total, and stream end (normal
or after `break`) returns the accumulated `TurnResult`. -/

/-- `SAFETY_LIMITS.maxOutputChars`. -/
def maxOutputChars : Nat := 50000

/-- `SAFETY_LIMITS.repetitionWindowSize`. -/
def repetitionWindowSize : Nat := 200

/-- Character-frequency bump (`chars[char] = (chars[char] || 0) + 1`). -/
def bumpCount (c : Char) : List (Char × Nat) → List (Char × Nat)
  | [] => [(c, 1)]
  | (c', n) :: t => if c' = c then (c', n + 1) :: t else (c', n) :: bumpCount c t

/-- The frequency table of a character list. -/
def charCounts (l : List Char) : List (Char × Nat) :=
  l.foldl (fun acc c => bumpCount c acc) []

/-- `Math.max(...Object.values(chars))` (the window is nonempty, so
the 0 floor is immaterial). -/
def maxCount (counts : List (Char × Nat)) : Nat :=
  counts.foldl (fun m p => max m p.2) 0

/-- `detectRepetition(text, windowSize)`: false for text shorter than
the window; otherwise test whether the most frequent character of the
trailing window exceeds the 0.85 ratio.  The JS comparison
`maxCount / windowSize > 0.85` is on floats; for the integer
`maxCount ∈ [0, 200]` and `windowSize = 200` (the only call site) it
holds exactly when `maxCount > 170`, which is what the exact rational
comparison below evaluates to. -/
def detectRepetition (text : String) (windowSize : Nat := repetitionWindowSize) : Bool :=
  if text.length < windowSize then false
  else
    let window := text.data.drop (text.data.length - windowSize)
    decide (85 * windowSize < 100 * maxCount (charCounts window))

/-- The stable fields of a `function_call` output item (`evt.item`):
its name, call id, and its own `arguments` property when the event
carries one. -/
structure FnItem where
  name : String
  callId : String
  arguments : Option String
deriving Repr, DecidableEq

/-- One slot of the `functionCalls` array:
`{ ...item, arguments: <accumulated string> }`. -/
structure FnCallAcc where
  item : FnItem
  arguments : String
deriving Repr, DecidableEq

/-- The protocol events `streamOnce` handles that affect the modelled
state.  The two reasoning-delta variants
(`response.reasoning_summary_text.delta` / `response.reasoning_text.delta`)
update the state identically and share one constructor.  Events of any
other type only touch diagnostics counters and share `other`. -/
inductive StreamEvent where
  | outputTextDelta (delta : String)
  | fnCallAdded (outputIndex : Nat) (item : FnItem)
  | fnArgsDelta (outputIndex : Nat) (delta : String)
  | fnCallDone (outputIndex : Nat) (item : FnItem)
  | reasoningDelta (delta : String)
  | completed
  | incompleteEvt (reason : String)
  | other
deriving Repr, DecidableEq

/-- The loop state of `streamOnce`. -/
structure StreamState where
  functionCalls : Nat → Option FnCallAcc
  fullResponseText : String
  reasoningBuf : String
  startedWriting : Bool
  incompleteReason : Option String
  sawCompleted : Bool
  outputTextDeltaCount : Nat
  broke : Bool

/-- The state before the first event. -/
def initialStreamState : StreamState :=
  ⟨fun _ => none, "", "", false, none, false, 0, false⟩

/-- Sparse-array write `functionCalls[idx] = v`. -/
def updIdx (f : Nat → Option FnCallAcc) (i : Nat) (v : FnCallAcc) :
    Nat → Option FnCallAcc :=
  fun j => if j = i then some v else f j

/-- One iteration of the `for await` loop body, restricted to the
modelled state.  After a `break` (`broke = true`) the remaining events
are not consumed. -/
def streamStep (s : StreamState) (e : StreamEvent) : StreamState :=
  if s.broke then s else
  match e with
  | .reasoningDelta d =>
    if ¬ s.startedWriting ∧ d ≠ "" then { s with reasoningBuf := s.reasoningBuf ++ d }
    else s
  | .fnCallAdded idx item =>
    { s with functionCalls := updIdx s.functionCalls idx ⟨item, item.arguments.getD ""⟩ }
  | .fnArgsDelta idx d =>
    match s.functionCalls idx with
    | some acc =>
      { s with functionCalls := updIdx s.functionCalls idx ⟨acc.item, acc.arguments ++ d⟩ }
    | none => s
  | .fnCallDone idx item =>
    let priorArguments := match s.functionCalls idx with
      | some acc => acc.arguments
      | none => ""
    { s with functionCalls := updIdx s.functionCalls idx ⟨item, priorArguments⟩ }
  | .outputTextDelta d =>
    if d = "" then s
    else
      let s1 := { s with startedWriting := true,
                         outputTextDeltaCount := s.outputTextDeltaCount + 1 }
      let text := s1.fullResponseText ++ d
      if maxOutputChars < text.length then
        { s1 with fullResponseText := text,
                  incompleteReason := some "output_too_long", broke := true }
      else if detectRepetition text then
        { s1 with fullResponseText := text,
                  incompleteReason := some "repetitive_output", broke := true }
      else { s1 with fullResponseText := text }
  | .completed => { s with sawCompleted := true }
  | .incompleteEvt r =>
    { s with incompleteReason := some (if r = "" then "unknown" else r) }
  | .other => s

/-- The loop of `streamOnce` over a whole event stream. -/
def runStream (evts : List StreamEvent) : StreamState :=
  evts.foldl streamStep initialStreamState

/-- The modelled fields of `streamOnce`'s returned turn result. -/
structure TurnResult where
  functionCalls : Nat → Option FnCallAcc
  hadText : Bool
  incompleteReason : Option String
  sawCompleted : Bool
  fullResponseText : String

/-- `streamOnce` on a whole event stream: run the loop, then build the
turn result (`hadText = evtCounters.output_text_delta > 0`;
`functionCalls.filter(Boolean)` keeps the accumulated calls in index
order, embedded as the indexed map itself). -/
def streamOnce (evts : List StreamEvent) : TurnResult :=
  let s := runStream evts
  ⟨s.functionCalls, decide (0 < s.outputTextDeltaCount), s.incompleteReason,
   s.sawCompleted, s.fullResponseText⟩

/-! ## Basic lemmas on the JSON embedding -/

theorem JArr.toList_ofList : ∀ (l : List JVal), (JArr.ofList l).toList = l
  | [] => rfl
  | h :: t => by simp [JArr.ofList, JArr.toList, JArr.toList_ofList t]

theorem JArr.length_eq_toList_length : ∀ (l : JArr), l.length = l.toList.length
  | .nil => rfl
  | .cons h t => by simp [JArr.length, JArr.toList, JArr.length_eq_toList_length t]

theorem JArr.length_ofList (l : List JVal) : (JArr.ofList l).length = l.length := by
  rw [JArr.length_eq_toList_length, JArr.toList_ofList]

theorem JArr.length_slice (start limit : Nat) (l : JArr) :
    (l.slice start limit).length = min limit (l.length - start) := by
  rw [JArr.slice, JArr.length_ofList, List.length_take, List.length_drop,
    JArr.length_eq_toList_length]

theorem JObj.lookup_set_self : ∀ (fs : JObj) (k : String) (v : JVal),
    (fs.set k v).lookup k = some v
  | .nil, k, v => by simp [JObj.set, JObj.lookup]
  | .cons k' v' t, k, v => by
    by_cases h : k' = k
    · simp [JObj.set, h, JObj.lookup]
    · simp [JObj.set, h, JObj.lookup, JObj.lookup_set_self t k v]

theorem JObj.lookup_set_ne : ∀ (fs : JObj) (k k' : String) (v : JVal),
    k' ≠ k → (fs.set k' v).lookup k = fs.lookup k
  | .nil, k, k', v, h => by simp [JObj.set, JObj.lookup, h]
  | .cons k'' v'' t, k, k', v, h => by
    by_cases h2 : k'' = k'
    · subst h2
      simp [JObj.set, JObj.lookup, h]
    · by_cases h3 : k'' = k
      · subst h3
        have h4 : ¬ (k'' = k') := fun hh => h hh.symm
        simp [JObj.set, h4, JObj.lookup]
      · simp [JObj.set, h2, JObj.lookup, h3, JObj.lookup_set_ne t k k' v h]

/-! ## Claim C4 — pagination arithmetic (`paginateOutput`) -/

/-- Any output with a primary collection is an object. -/
theorem findPrimaryData_obj {output : JVal} {p : String × JVal × Bool}
    (h : findPrimaryData output = some p) : ∃ fs, output = .obj fs := by
  cases output <;> simp [findPrimaryData] at h ⊢

/-- The per-field test only produces the shapes the pagination code
branches on: a nonempty array flagged `isObject = false`, or a
nonempty object flagged `isObject = true`, under the probed key. -/
theorem primaryOfField_shape {fs : JObj} {f : String} {p : String × JVal × Bool}
    (h : primaryOfField fs f = some p) :
    p.1 = f ∧ ((∃ l, p.2.1 = JVal.arr l ∧ p.2.2 = false ∧ 0 < l.length) ∨
               (∃ o, p.2.1 = JVal.obj o ∧ p.2.2 = true ∧ 0 < o.length)) := by
  unfold primaryOfField at h
  cases hl : fs.lookup f with
  | none => rw [hl] at h; exact absurd h (by simp)
  | some v =>
    rw [hl] at h
    cases v with
    | arr l =>
      by_cases h0 : 0 < l.length
      · simp [h0] at h
        subst h
        exact ⟨rfl, .inl ⟨l, rfl, rfl, h0⟩⟩
      · simp [h0] at h
    | obj o =>
      by_cases h0 : 0 < o.length
      · simp [h0] at h
        subst h
        exact ⟨rfl, .inr ⟨o, rfl, rfl, h0⟩⟩
      · simp [h0] at h
    | null => simp at h
    | bool b => simp at h
    | num n => simp at h
    | str s => simp at h

/-- C4 (amended): for an array-shaped primary collection of length `L`,
page size `P` and offset `O`, whenever the collection does not already
fit in one page at offset 0 (i.e. unless `L ≤ P` and `O = 0`),
`paginateOutput` replaces the collection by `min(P, L−O)` items and
attaches `_pagination` metadata with `returned = min(P, L−O)`,
`total = L`, `hasMore = (O + returned) < L` and
`nextOffset = hasMore ? O + returned : null`; when `L ≤ P` and `O = 0`
the output passes through unchanged with no pagination metadata. -/
theorem claim_C4_pagination :
    (∀ (output : JVal) (key : String) (l : JArr) (offset limit : Nat) (cid : String),
      findPrimaryData output = some (key, .arr l, false) →
      key ≠ "_pagination" →
      ¬ (l.length ≤ limit ∧ offset = 0) →
      (paginateOutput output offset limit cid).2 = true
      ∧ (paginateOutput output offset limit cid).1.getField key =
          some (.arr (l.slice offset limit))
      ∧ (l.slice offset limit).length = min limit (l.length - offset)
      ∧ ((paginateOutput output offset limit cid).1.getField "_pagination").bind
          (JVal.getField "returned") = some (.num (l.slice offset limit).length)
      ∧ ((paginateOutput output offset limit cid).1.getField "_pagination").bind
          (JVal.getField "total") = some (.num l.length)
      ∧ ((paginateOutput output offset limit cid).1.getField "_pagination").bind
          (JVal.getField "hasMore") =
          some (.bool (decide (offset + (l.slice offset limit).length < l.length)))
      ∧ ((paginateOutput output offset limit cid).1.getField "_pagination").bind
          (JVal.getField "nextOffset") =
          some (if offset + (l.slice offset limit).length < l.length then
                  .num (offset + (l.slice offset limit).length) else .null))
    ∧ (∀ (output : JVal) (key : String) (l : JArr) (limit : Nat) (cid : String),
      findPrimaryData output = some (key, .arr l, false) →
      l.length ≤ limit →
      paginateOutput output 0 limit cid = (output, false)) := by
  constructor
  · intro output key l offset limit cid hfind hkey hno
    obtain ⟨fs, rfl⟩ := findPrimaryData_obj hfind
    have hsl := JArr.length_slice offset limit l
    unfold paginateOutput
    rw [hfind]
    simp only [Bool.false_eq_true, if_false]
    rw [if_neg hno]
    refine ⟨rfl, ?_, hsl, ?_, ?_, ?_, ?_⟩
    · simp only [JVal.getField]
      rw [JObj.lookup_set_ne _ key "_pagination" _ (Ne.symm hkey), JObj.lookup_set_self]
    · simp only [JVal.getField]
      rw [JObj.lookup_set_self]
      simp [paginationBlock, JVal.getField, JObj.lookup]
    · simp only [JVal.getField]
      rw [JObj.lookup_set_self]
      simp [paginationBlock, JVal.getField, JObj.lookup]
    · simp only [JVal.getField]
      rw [JObj.lookup_set_self]
      simp [paginationBlock, JVal.getField, JObj.lookup]
    · simp only [JVal.getField]
      rw [JObj.lookup_set_self]
      simp [paginationBlock, JVal.getField, JObj.lookup]
  · intro output key l limit cid hfind hle
    obtain ⟨fs, rfl⟩ := findPrimaryData_obj hfind
    unfold paginateOutput
    rw [hfind]
    simp [hle]

/-- C4, counterexample to the claim as frozen: the claim quantifies
over *every* length/page-size/offset, but for `L = 1 ≤ P = 10` at
`O = 0` the code returns the output unchanged and attaches no
`_pagination` metadata at all — no `hasMore`, no `nextOffset` is set. -/
theorem claim_C4_counterexample :
    paginateOutput (.obj (.cons "items" (.arr (.cons (.num 1) .nil)) .nil)) 0 10 "cid"
      = (.obj (.cons "items" (.arr (.cons (.num 1) .nil)) .nil), false)
    ∧ (paginateOutput (.obj (.cons "items" (.arr (.cons (.num 1) .nil)) .nil))
        0 10 "cid").1.getField "_pagination" = none
    ∧ (paginateOutput (.obj (.cons "items" (.arr (.cons (.num 1) .nil)) .nil))
        0 10 "cid").1.getField "hasMore" = none := by
  decide

/-- C4, witness: a 12-element `items` array paged with `P = 10`,
`O = 0` paginates with `nextOffset = 10`, via `claim_C4_pagination`. -/
theorem claim_C4_witness :
    (paginateOutput (.obj (.cons "items"
        (.arr (JArr.ofList (List.map JVal.num (List.range 12)))) .nil)) 0 10 "cid").2 = true
    ∧ ((paginateOutput (.obj (.cons "items"
        (.arr (JArr.ofList (List.map JVal.num (List.range 12)))) .nil)) 0 10 "cid").1.getField
        "_pagination").bind (JVal.getField "nextOffset") = some (.num 10) :=
  have h := claim_C4_pagination.1
    (.obj (.cons "items" (.arr (JArr.ofList (List.map JVal.num (List.range 12)))) .nil))
    "items" (JArr.ofList (List.map JVal.num (List.range 12))) 0 10 "cid"
    (by decide) (by decide) (by decide)
  ⟨h.1, by rw [h.2.2.2.2.2.2]; decide⟩

/-! ## Claim C9 — executor exceptions are contained -/

/-- C9: when the cache misses for the effective cache id and the
executor throws, `executeWithMiddleware` catches the exception and
returns exactly `{ ok: false, error: String(e) }` (leaving the cache
untouched); the call is embedded as a total function, so no exception
crosses the middleware boundary to the caller. -/
theorem claim_C9_executor_exception_contained
    (name : String) (args : JObj) (executor : JObj → Except String JVal)
    (now : Nat) (cache : ResultCache) (msg : String)
    (hmiss : cacheGet (effectiveCacheId name args) cache = none)
    (hthrow : executor (stripPaginationArgs args) = .error msg) :
    executeWithMiddleware name args executor now cache =
      ⟨errorResult msg, cache, true⟩ := by
  simp only [executeWithMiddleware, getCachedResult, hmiss]
  simp [hthrow]

/-- C9, witness: a concrete throwing executor at an empty cache. -/
theorem claim_C9_witness :
    executeWithMiddleware "t" .nil (fun _ => .error "Error: boom") 0 [] =
      ⟨errorResult "Error: boom", [], true⟩ :=
  claim_C9_executor_exception_contained "t" .nil (fun _ => .error "Error: boom")
    0 [] "Error: boom" rfl rfl

/-! ## Claim C10 — the array replacer drops nested keys, so nested
argument differences collide on one cache key -/

/-- C10: `generateCacheKey` passes the sorted *top-level* key list to
`JSON.stringify` as an array replacer, and an array replacer filters
property names at every nesting depth, so nested keys absent from the
top level (here `a` under `filter`) are omitted from the
serialization.  Hence for every tool name the argument objects
`{filter:{a:1}}` and `{filter:{a:2}}` derive the identical cache key;
and after a first call with `{filter:{a:1}}` whose (compressed) result
holds 101 `items` and is therefore cached, a second call with
`{filter:{a:2}}` within the TTL returns the first 100 items sliced
from the first call's cached result, for *every* executor — the
executor of the second call is never invoked. -/
theorem claim_C10_nested_args_collision :
    (∀ name : String,
      generateCacheKey name (.cons "filter" (.obj (.cons "a" (.num 1) .nil)) .nil) =
        generateCacheKey name (.cons "filter" (.obj (.cons "a" (.num 2) .nil)) .nil))
    ∧ (∀ executor₂ : JObj → Except String JVal,
      (executeWithMiddleware "t" (.cons "filter" (.obj (.cons "a" (.num 2) .nil)) .nil)
          executor₂ 1000
          (executeWithMiddleware "t" (.cons "filter" (.obj (.cons "a" (.num 1) .nil)) .nil)
            (fun _ => .ok (.obj (.cons "items"
              (.arr (JArr.ofList (List.map JVal.num (List.range 101)))) .nil)))
            0 []).cache).invoked = false
      ∧ (executeWithMiddleware "t" (.cons "filter" (.obj (.cons "a" (.num 2) .nil)) .nil)
          executor₂ 1000
          (executeWithMiddleware "t" (.cons "filter" (.obj (.cons "a" (.num 1) .nil)) .nil)
            (fun _ => .ok (.obj (.cons "items"
              (.arr (JArr.ofList (List.map JVal.num (List.range 101)))) .nil)))
            0 []).cache).output.getField "items" =
        some (.arr (JArr.ofList (List.map JVal.num (List.range 100))))) := by
  set_option maxRecDepth 4000 in
  exact ⟨fun _ => rfl, fun _ => ⟨rfl, rfl⟩⟩

/-! ## Claim C2 — dispatch with only unknown host identifiers -/

/-- When no requested host resolves in the index, bucketing yields no
bucket. -/
theorem bucketHostsByServer_nil (index : HostIndex) :
    ∀ (hosts : List JVal), (∀ h ∈ hosts, hostsGet index h = none) →
    bucketHostsByServer index hosts = []
  | [], _ => rfl
  | h :: t, hall => by
    unfold bucketHostsByServer
    rw [List.foldl_cons, hall h (by simp)]
    exact bucketHostsByServer_nil index t (fun h' hm => hall h' (by simp [hm]))

/-- C2 (amended): a non-meta tool call whose requested host
identifiers are all absent from the resource index (so the bucket set
is empty) returns the envelope `{ ok: true, results: [] }` — silently,
with no error field and no sample of known host keys — and performs no
provider call. -/
theorem claim_C2_unmatched_hosts
    (name : String) (args : JObj) (index : HostIndex)
    (send : String → JObj → Except String JVal) (searchHost : JObj → JVal)
    (hn1 : name ≠ "ListHosts") (hn2 : name ≠ "SearchHost")
    (hall : ∀ h ∈ requestedHosts args, hostsGet index h = none) :
    executeMcpFunctionCall name args index send searchHost =
      (.obj (.cons "ok" (.bool true) (.cons "results" (.arr .nil) .nil)), []) := by
  unfold executeMcpFunctionCall
  rw [if_neg hn1, if_neg hn2]
  simp only [bucketHostsByServer_nil index _ hall]
  rfl

/-- C2, counterexample to the claim as frozen: with a one-host index
(`web-01`) and a call targeting only the unknown `nope`, the code does
*not* return a structured no-match error listing sample known hosts —
it returns `ok: true` with an empty `results` array, no `error` field,
and no provider call. -/
theorem claim_C2_counterexample :
    (executeMcpFunctionCall "PingTool"
        (.cons "hosts" (.arr (.cons (.str "nope") .nil)) .nil)
        [("web-01", ⟨"web-01", "srv-A", "https://a.example", .obj .nil, .arr .nil⟩)]
        (fun _ _ => .ok .null) (fun _ => .null)).1 =
      .obj (.cons "ok" (.bool true) (.cons "results" (.arr .nil) .nil))
    ∧ (executeMcpFunctionCall "PingTool"
        (.cons "hosts" (.arr (.cons (.str "nope") .nil)) .nil)
        [("web-01", ⟨"web-01", "srv-A", "https://a.example", .obj .nil, .arr .nil⟩)]
        (fun _ _ => .ok .null) (fun _ => .null)).1.getField "ok" = some (.bool true)
    ∧ (executeMcpFunctionCall "PingTool"
        (.cons "hosts" (.arr (.cons (.str "nope") .nil)) .nil)
        [("web-01", ⟨"web-01", "srv-A", "https://a.example", .obj .nil, .arr .nil⟩)]
        (fun _ _ => .ok .null) (fun _ => .null)).1.getField "error" = none
    ∧ (executeMcpFunctionCall "PingTool"
        (.cons "hosts" (.arr (.cons (.str "nope") .nil)) .nil)
        [("web-01", ⟨"web-01", "srv-A", "https://a.example", .obj .nil, .arr .nil⟩)]
        (fun _ _ => .ok .null) (fun _ => .null)).2 = [] := by
  refine ⟨rfl, rfl, rfl, rfl⟩

/-- C2, witness: the amended theorem applied to the concrete
unknown-host call above (two unknown identifiers, one of them not even
a string). -/
theorem claim_C2_witness :
    executeMcpFunctionCall "MetricsQuery"
      (.cons "hosts" (.arr (.cons (.str "ghost-1") (.cons (.num 7) .nil))) .nil)
      [("web-01", ⟨"web-01", "srv-A", "https://a.example", .obj .nil, .arr .nil⟩)]
      (fun _ _ => .error "unreachable") (fun _ => .null) =
      (.obj (.cons "ok" (.bool true) (.cons "results" (.arr .nil) .nil)), []) :=
  claim_C2_unmatched_hosts "MetricsQuery"
    (.cons "hosts" (.arr (.cons (.str "ghost-1") (.cons (.num 7) .nil))) .nil)
    [("web-01", ⟨"web-01", "srv-A", "https://a.example", .obj .nil, .arr .nil⟩)]
    (fun _ _ => .error "unreachable") (fun _ => .null)
    (by decide) (by decide) (by decide)

/-! ## Claim C1 — cache hit skips re-execution -/

/-- Without an explicit `_cacheId` argument, the effective cache id is
the generated key. -/
theorem effectiveCacheId_of_no_cacheId (name : String) (args : JObj)
    (h : args.lookup "_cacheId" = none) :
    effectiveCacheId name args = generateCacheKey name args := by
  unfold effectiveCacheId
  rw [h]

/-- The generated cache key depends only on the pagination-stripped
arguments. -/
theorem generateCacheKey_eq_of_strip_eq (name : String) (a₁ a₂ : JObj)
    (h : stripPaginationArgs a₁ = stripPaginationArgs a₂) :
    generateCacheKey name a₁ = generateCacheKey name a₂ := by
  unfold generateCacheKey
  rw [h]

/-- `Map.set` makes the key hit. -/
theorem cacheGet_cacheSet_self (k : String) (e : CacheEntry) :
    ∀ (c : ResultCache), cacheGet k (cacheSet k e c) = some e
  | [] => by simp [cacheSet, cacheGet]
  | (k', e') :: t => by
    by_cases h : k' = k
    · simp [cacheSet, cacheGet, h]
    · simp [cacheSet, cacheGet, h, cacheGet_cacheSet_self k e t]

/-- The entry just stored by `setCachedResult` is retrievable. -/
theorem cacheGet_setCachedResult_self (k name : String) (d : CacheData)
    (now : Nat) (c : ResultCache) :
    cacheGet k (setCachedResult k name d now c) = some ⟨d, now, name⟩ := by
  unfold setCachedResult
  exact cacheGet_cacheSet_self k _ _

/-- C1 (amended): when a first call (with no explicit `_cacheId` and a
cache miss for its generated key) executes and its compressed result's
primary collection is large enough to be cached — its size exceeds the
first call's effective page size or the default of 100 — then the
result is cached, and a second call within the cache TTL whose
non-pagination arguments are identical (its offset may differ) returns
data sliced from the first call's cached full result by
`paginateOutput` and does not invoke its executor, whatever that
executor is.  (Without the size condition nothing is cached and the
second call re-executes: see the counterexample.) -/
theorem claim_C1_cache_hit_skips_reexecution
    (name : String) (args₁ args₂ : JObj)
    (executor₁ executor₂ : JObj → Except String JVal)
    (now₁ now₂ : Nat) (cache : ResultCache) (R : JVal)
    (h1 : args₁.lookup "_cacheId" = none)
    (h2 : args₂.lookup "_cacheId" = none)
    (heq : stripPaginationArgs args₁ = stripPaginationArgs args₂)
    (hmiss : cacheGet (generateCacheKey name args₁) cache = none)
    (hexec : executor₁ (stripPaginationArgs args₁) = .ok R)
    (hsize : effectiveMaxResults args₁ < primarySize (compressMcpOutput R name)
             ∨ DEFAULT_MAX_RESULTS < primarySize (compressMcpOutput R name))
    (httl : now₂ - now₁ ≤ RESULT_CACHE_TTL_MS) :
    (executeWithMiddleware name args₁ executor₁ now₁ cache).invoked = true
    ∧ (executeWithMiddleware name args₁ executor₁ now₁ cache).cache =
        setCachedResult (generateCacheKey name args₁) name
          ⟨compressMcpOutput R name, none, none⟩ now₁ cache
    ∧ (executeWithMiddleware name args₂ executor₂ now₂
        (executeWithMiddleware name args₁ executor₁ now₁ cache).cache).invoked = false
    ∧ (executeWithMiddleware name args₂ executor₂ now₂
        (executeWithMiddleware name args₁ executor₁ now₁ cache).cache).output =
        ensureSafeSize
          (paginateOutput (compressMcpOutput R name) (effectiveOffset args₂)
            (effectiveMaxResults args₂) (generateCacheKey name args₁)).1 name := by
  have hkey : effectiveCacheId name args₂ = generateCacheKey name args₁ := by
    rw [effectiveCacheId_of_no_cacheId name args₂ h2]
    exact (generateCacheKey_eq_of_strip_eq name args₁ args₂ heq).symm
  have hfirst :
      executeWithMiddleware name args₁ executor₁ now₁ cache =
      ⟨(executeWithMiddleware name args₁ executor₁ now₁ cache).output,
        setCachedResult (generateCacheKey name args₁) name
          ⟨compressMcpOutput R name, none, none⟩ now₁ cache, true⟩ := by
    unfold executeWithMiddleware getCachedResult
    simp only [effectiveCacheId_of_no_cacheId name args₁ h1, hmiss, hexec,
      if_pos hsize]
  refine ⟨by rw [hfirst], by rw [hfirst], ?_, ?_⟩ <;>
  · rw [hfirst]
    unfold executeWithMiddleware getCachedResult
    simp only [hkey, cacheGet_setCachedResult_self,
      if_neg (by omega : ¬ RESULT_CACHE_TTL_MS < now₂ - now₁)]

/-- C1, counterexample to the claim as frozen: the claim quantifies
over *every* argument object and executor, but results too small to be
cached (`dataSize > maxResults || dataSize > DEFAULT_MAX_RESULTS`
fails — here 2 items against the default page size of 100) are never
stored, so a second identical call re-invokes the executor: the
underlying executor runs twice, not once. -/
theorem claim_C1_counterexample :
    (executeWithMiddleware "t" .nil
      (fun _ => .ok (.obj (.cons "items"
        (.arr (.cons (.num 1) (.cons (.num 2) .nil))) .nil))) 0 []).invoked = true
    ∧ (executeWithMiddleware "t" .nil
        (fun _ => .ok (.obj (.cons "items"
          (.arr (.cons (.num 1) (.cons (.num 2) .nil))) .nil))) 0 []).cache = []
    ∧ (executeWithMiddleware "t" .nil
        (fun _ => .ok (.obj (.cons "items"
          (.arr (.cons (.num 1) (.cons (.num 2) .nil))) .nil))) 1000
        (executeWithMiddleware "t" .nil
          (fun _ => .ok (.obj (.cons "items"
            (.arr (.cons (.num 1) (.cons (.num 2) .nil))) .nil))) 0 []).cache).invoked
      = true := by
  refine ⟨rfl, rfl, rfl⟩

/-- C1, witness: a 101-item result cached by the first call; the
second call (offset 100, one minute later) does not invoke its
executor, via `claim_C1_cache_hit_skips_reexecution`. -/
theorem claim_C1_witness :
    (executeWithMiddleware "q" (.cons "q" (.str "x") .nil)
      (fun _ => .ok (.obj (.cons "items"
        (.arr (JArr.ofList (List.map JVal.num (List.range 101)))) .nil))) 0 []).invoked = true
    ∧ (executeWithMiddleware "q"
        (.cons "q" (.str "x") (.cons "offset" (.num 100) .nil))
        (fun _ => .error "unused") 60000
        (executeWithMiddleware "q" (.cons "q" (.str "x") .nil)
          (fun _ => .ok (.obj (.cons "items"
            (.arr (JArr.ofList (List.map JVal.num (List.range 101)))) .nil))) 0 []).cache).invoked
      = false :=
  have h := claim_C1_cache_hit_skips_reexecution "q"
    (.cons "q" (.str "x") .nil)
    (.cons "q" (.str "x") (.cons "offset" (.num 100) .nil))
    (fun _ => .ok (.obj (.cons "items"
      (.arr (JArr.ofList (List.map JVal.num (List.range 101)))) .nil)))
    (fun _ => .error "unused") 0 60000 []
    (.obj (.cons "items" (.arr (JArr.ofList (List.map JVal.num (List.range 101)))) .nil))
    rfl rfl (by decide) rfl rfl (by decide) (by decide)
  ⟨h.1, h.2.2.1⟩

/-! ## Claim C8 — function-call argument accumulation -/

theorem updIdx_self (f : Nat → Option FnCallAcc) (i : Nat) (v : FnCallAcc) :
    updIdx f i v i = some v := by
  simp [updIdx]

/-- Argument-fragment deltas for slot `idx` concatenate, in arrival
order, onto the accumulated argument string, and never set `broke`. -/
theorem fnArgsDeltas_accumulate (idx : Nat) :
    ∀ (ds : List String) (s : StreamState) (acc : FnCallAcc),
      s.broke = false → s.functionCalls idx = some acc →
      (List.foldl streamStep s (ds.map (.fnArgsDelta idx))).functionCalls idx =
        some ⟨acc.item, ds.foldl (fun a d => a ++ d) acc.arguments⟩
      ∧ (List.foldl streamStep s (ds.map (.fnArgsDelta idx))).broke = false
  | [], s, acc, hb, hf => ⟨hf, hb⟩
  | d :: ds, s, acc, hb, hf => by
    have hstep : streamStep s (.fnArgsDelta idx d) =
        { s with functionCalls := updIdx s.functionCalls idx ⟨acc.item, acc.arguments ++ d⟩ } := by
      unfold streamStep
      rw [if_neg (by simp [hb])]
      simp only [hf]
    rw [List.map_cons, List.foldl_cons, hstep]
    exact fnArgsDeltas_accumulate idx ds _ ⟨acc.item, acc.arguments ++ d⟩ hb
      (updIdx_self _ _ _)

/-- The "done" handler keeps the accumulated argument string and takes
everything else from the done event's item. -/
theorem streamStep_done (s : StreamState) (idx : Nat) (item : FnItem)
    (hb : s.broke = false) (acc : FnCallAcc) (hf : s.functionCalls idx = some acc) :
    streamStep s (.fnCallDone idx item) =
      { s with functionCalls := updIdx s.functionCalls idx ⟨item, acc.arguments⟩ } := by
  unfold streamStep
  rw [if_neg (by simp [hb])]
  simp only [hf]

/-- After a `break`, the remaining events of the stream leave the state
untouched. -/
theorem foldl_streamStep_broke :
    ∀ (l : List StreamEvent) (s : StreamState), s.broke = true →
      List.foldl streamStep s l = s
  | [], _, _ => rfl
  | e :: t, s, h => by
    have hs : streamStep s e = s := by
      unfold streamStep
      rw [if_pos h]
    rw [List.foldl_cons, hs]
    exact foldl_streamStep_broke t s h

/-- `runStream` splits over list append. -/
theorem runStream_append (l₁ l₂ : List StreamEvent) :
    runStream (l₁ ++ l₂) = List.foldl streamStep (runStream l₁) l₂ := by
  unfold runStream
  exact List.foldl_append ..

/-- The turn result's function-call map is the final loop state's. -/
theorem streamOnce_functionCalls (evts : List StreamEvent) :
    (streamOnce evts).functionCalls = (runStream evts).functionCalls := rfl

/-- The "added" handler seeds the slot with the item's own argument
text while the loop is live. -/
theorem streamStep_added (s : StreamState) (idx : Nat) (item : FnItem)
    (hb : s.broke = false) :
    streamStep s (.fnCallAdded idx item) =
      { s with functionCalls := (updIdx
          s.functionCalls idx ⟨item, item.arguments.getD ""⟩) } := by
  unfold streamStep
  rw [if_neg (by simp [hb])]

/-- C8 (amended): whenever a call lifecycle — "added" at slot `idx`,
its argument-fragment deltas, then "done" — runs while the stream loop
is still live, the deltas concatenate in arrival order onto the "added"
item's own argument text (`item.arguments || ""`), and the "done" event
installs `{ ...doneItem, arguments: accumulated }`, whether or not the
done item carries argument text of its own.  The liveness hypothesis is
essential: a safety cutoff breaking the loop mid-lifecycle stops
consumption, so later argument deltas and the done item are ignored
(see the counterexample). -/
theorem claim_C8_argument_accumulation (pre : List StreamEvent)
    (idx : Nat) (item doneItem : FnItem) (ds : List String)
    (hb : (runStream pre).broke = false) :
    (streamOnce (pre ++ .fnCallAdded idx item :: ds.map (.fnArgsDelta idx) ++
        [.fnCallDone idx doneItem])).functionCalls idx =
      some ⟨doneItem, ds.foldl (fun a d => a ++ d) (item.arguments.getD "")⟩ := by
  rw [streamOnce_functionCalls, runStream_append, List.foldl_cons,
    List.foldl_nil, runStream_append, List.foldl_cons,
    streamStep_added (runStream pre) idx item hb]
  have hacc := fnArgsDeltas_accumulate idx ds
    { runStream pre with functionCalls := (updIdx
        (runStream pre).functionCalls idx ⟨item, item.arguments.getD ""⟩) }
    ⟨item, item.arguments.getD ""⟩ hb (updIdx_self _ _ _)
  rw [streamStep_done _ idx doneItem hacc.2 _ hacc.1]
  exact updIdx_self _ _ _

set_option maxRecDepth 10000 in
/-- C8, counterexample to the claim as frozen: the claim quantifies
over every tool call of a turn's event stream, but a safety cutoff
(here a 200-character repetitive text delta) between a call's "added"
and "done" events breaks the loop, so the later argument delta is not
concatenated and the "done" item is ignored — the slot keeps the
"added" item and its own argument text. -/
theorem claim_C8_counterexample :
    (streamOnce [.fnCallAdded 0 ⟨"get_metrics", "call_1", some "x"⟩,
      .outputTextDelta (String.mk (List.replicate 200 'q')),
      .fnArgsDelta 0 "yz",
      .fnCallDone 0 ⟨"get_metrics", "call_1", none⟩]).functionCalls 0 =
      some ⟨⟨"get_metrics", "call_1", some "x"⟩, "x"⟩
    ∧ (streamOnce [.fnCallAdded 0 ⟨"get_metrics", "call_1", some "x"⟩,
      .outputTextDelta (String.mk (List.replicate 200 'q')),
      .fnArgsDelta 0 "yz",
      .fnCallDone 0 ⟨"get_metrics", "call_1", none⟩]).functionCalls 0 ≠
      some ⟨⟨"get_metrics", "call_1", none⟩, "xyz"⟩ := by
  decide

/-- Concrete instance of the C8 amended theorem: a live text prefix,
two argument deltas, and a done item that omits its argument text. -/
theorem claim_C8_witness :
    (streamOnce ([.outputTextDelta "hello"] ++
        .fnCallAdded 0 ⟨"get_metrics", "call_1", some "x"⟩ ::
        ["y", "z"].map (.fnArgsDelta 0) ++
        [.fnCallDone 0 ⟨"get_metrics", "call_1", none⟩])).functionCalls 0 =
      some ⟨⟨"get_metrics", "call_1", none⟩,
        ["y", "z"].foldl (fun a d => a ++ d)
          ((some "x" : Option String).getD "")⟩ :=
  claim_C8_argument_accumulation [.outputTextDelta "hello"] 0
    ⟨"get_metrics", "call_1", some "x"⟩ ⟨"get_metrics", "call_1", none⟩
    ["y", "z"] (by decide)

/-! ## Claim C7 — repetitive-output safety cutoff -/

/-- A nonempty text delta that stays under the length ceiling and does
not trip the repetition detector is appended and streaming goes on. -/
theorem streamStep_text_ok (s : StreamState) (d : String)
    (hb : s.broke = false) (hd : d ≠ "")
    (hlen : ¬ maxOutputChars < (s.fullResponseText ++ d).length)
    (hrep : detectRepetition (s.fullResponseText ++ d) = false) :
    streamStep s (.outputTextDelta d) =
      { s with fullResponseText := s.fullResponseText ++ d,
               startedWriting := true,
               outputTextDeltaCount := s.outputTextDeltaCount + 1 } := by
  unfold streamStep
  simp only [if_neg (show ¬ s.broke = true by simp [hb]), if_neg hd, if_neg hlen,
    hrep, Bool.false_eq_true, if_false]

/-- A nonempty text delta that pushes the accumulated text over the
ceiling breaks the loop with `output_too_long` — this check runs
*before* the repetition check. -/
theorem streamStep_text_too_long (s : StreamState) (d : String)
    (hb : s.broke = false) (hd : d ≠ "")
    (hlen : maxOutputChars < (s.fullResponseText ++ d).length) :
    streamStep s (.outputTextDelta d) =
      { s with fullResponseText := s.fullResponseText ++ d,
               startedWriting := true,
               outputTextDeltaCount := s.outputTextDeltaCount + 1,
               incompleteReason := some "output_too_long",
               broke := true } := by
  unfold streamStep
  simp only [if_neg (show ¬ s.broke = true by simp [hb]), if_neg hd, if_pos hlen]

/-- A nonempty text delta under the ceiling whose accumulated text has
a repetition-dominated trailing window breaks the loop with
`repetitive_output`. -/
theorem streamStep_text_repetitive (s : StreamState) (d : String)
    (hb : s.broke = false) (hd : d ≠ "")
    (hlen : ¬ maxOutputChars < (s.fullResponseText ++ d).length)
    (hrep : detectRepetition (s.fullResponseText ++ d) = true) :
    streamStep s (.outputTextDelta d) =
      { s with fullResponseText := s.fullResponseText ++ d,
               startedWriting := true,
               outputTextDeltaCount := s.outputTextDeltaCount + 1,
               incompleteReason := some "repetitive_output",
               broke := true } := by
  unfold streamStep
  simp only [if_neg (show ¬ s.broke = true by simp [hb]), if_neg hd, if_neg hlen,
    hrep, if_true]

/-- C7 (amended): whenever a nonempty text delta `d` arrives while the
stream is still live, the accumulated text `t ++ d` stays within the
50,000-character ceiling (which takes precedence), and its trailing
200-character window is >85% one single repeated character
(`detectRepetition`), the engine stops consuming every later event,
ends the turn without raising an error, and returns a turn result with
`incompleteReason = "repetitive_output"` whose accumulated text is
exactly `t ++ d` — no text arriving after the triggering delta is
accumulated, and the whole turn result equals that of the stream
truncated at the triggering delta. -/
theorem claim_C7_repetitive_output_cutoff
    (pre post : List StreamEvent) (d : String)
    (hb : (runStream pre).broke = false)
    (hd : d ≠ "")
    (hlen : ((runStream pre).fullResponseText ++ d).length ≤ maxOutputChars)
    (hrep : detectRepetition ((runStream pre).fullResponseText ++ d) = true) :
    (streamOnce (pre ++ .outputTextDelta d :: post)).incompleteReason =
      some "repetitive_output"
    ∧ (streamOnce (pre ++ .outputTextDelta d :: post)).fullResponseText =
        (runStream pre).fullResponseText ++ d
    ∧ streamOnce (pre ++ .outputTextDelta d :: post) =
        streamOnce (pre ++ [.outputTextDelta d]) := by
  have hstep := streamStep_text_repetitive (runStream pre) d hb hd (by omega) hrep
  have hrun : ∀ post' : List StreamEvent,
      runStream (pre ++ .outputTextDelta d :: post') =
      { runStream pre with
          fullResponseText := (runStream pre).fullResponseText ++ d,
          startedWriting := true,
          outputTextDeltaCount := (runStream pre).outputTextDeltaCount + 1,
          incompleteReason := some "repetitive_output",
          broke := true } := by
    intro post'
    rw [runStream_append, List.foldl_cons, hstep]
    exact foldl_streamStep_broke post' _ rfl
  have hmain := hrun post
  have htrunc := hrun []
  unfold streamOnce
  rw [hmain, htrunc]
  exact ⟨rfl, rfl, rfl⟩

/-- `detectRepetition` on text at least one window long tests the
trailing window's dominant-character count. -/
theorem detectRepetition_eq (text : String)
    (h : ¬ text.length < repetitionWindowSize) :
    detectRepetition text =
      decide (85 * repetitionWindowSize < 100 * maxCount (charCounts
        (text.data.drop (text.data.length - repetitionWindowSize)))) := by
  unfold detectRepetition
  rw [if_neg h]

/-- The turn result's accumulated text is the final loop state's. -/
theorem streamOnce_frt (evts : List StreamEvent) :
    (streamOnce evts).fullResponseText = (runStream evts).fullResponseText := rfl

/-- The turn result's incomplete reason is the final loop state's. -/
theorem streamOnce_ir (evts : List StreamEvent) :
    (streamOnce evts).incompleteReason = (runStream evts).incompleteReason := rfl

/-- Running a two-event stream is two steps from the initial state. -/
theorem runStream_pair (e1 e2 : StreamEvent) :
    runStream [e1, e2] = streamStep (streamStep initialStreamState e1) e2 := rfl

set_option maxRecDepth 10000 in
/-- C7, counterexample to the claim as frozen: the claim quantifies
over *every* stream with a repetition-dominated trailing window, but
the length ceiling is checked first.  Here a 49,900-character
non-repetitive delta (alternating `ab`) is followed by 300 `c`s: at the
second delta the accumulated text's trailing 200-character window is
100% one repeated character — the claim's antecedent holds — yet the
turn ends with `incompleteReason = "output_too_long"`, not
`"repetitive_output"`, because the accumulated length 50,200 exceeds
the ceiling. -/
theorem claim_C7_counterexample :
    detectRepetition (String.mk (List.flatten (List.replicate 24950 ['a', 'b'])) ++
      String.mk (List.replicate 300 'c')) = true
    ∧ (streamOnce
        [.outputTextDelta (String.mk (List.flatten (List.replicate 24950 ['a', 'b']))),
         .outputTextDelta (String.mk (List.replicate 300 'c'))]).fullResponseText =
        String.mk (List.flatten (List.replicate 24950 ['a', 'b'])) ++
          String.mk (List.replicate 300 'c')
    ∧ (streamOnce
        [.outputTextDelta (String.mk (List.flatten (List.replicate 24950 ['a', 'b']))),
         .outputTextDelta (String.mk (List.replicate 300 'c'))]).incompleteReason =
        some "output_too_long" := by
  have hlenab : (List.flatten (List.replicate 24950 ['a', 'b'])).length = 49900 := by
    rw [List.length_flatten]
    rw [List.map_replicate]
    rw [List.sum_replicate]
    norm_num
  have hmklen : (String.mk (List.flatten (List.replicate 24950 ['a', 'b']))).length = 49900 :=
    hlenab
  have hd1ne : String.mk (List.flatten (List.replicate 24950 ['a', 'b'])) ≠ "" := by
    intro h
    rw [h] at hmklen
    simp at hmklen
  have hd2ne : String.mk (List.replicate 300 'c') ≠ "" := by
    intro h
    have : (String.mk (List.replicate 300 'c')).length = 300 := List.length_replicate ..
    rw [h] at this
    simp at this
  have hwin1 : List.drop (49900 - 200) (List.flatten (List.replicate 24950 ['a', 'b'])) =
      List.flatten (List.replicate 100 ['a', 'b']) := by
    rw [show (24950 : Nat) = 24850 + 100 from by norm_num, List.replicate_add,
      List.flatten_append]
    have h2 : (49900 - 200 : Nat) =
        (List.flatten (List.replicate 24850 ['a', 'b'])).length + 0 := by
      rw [List.length_flatten, List.map_replicate, List.sum_replicate]
      norm_num
    rw [h2, List.drop_append]
    rfl
  have hdata1 : (String.mk (List.flatten (List.replicate 24950 ['a', 'b']))).data =
      List.flatten (List.replicate 24950 ['a', 'b']) := rfl
  have hrep1 : detectRepetition
      (String.mk (List.flatten (List.replicate 24950 ['a', 'b']))) = false := by
    rw [detectRepetition_eq _ (show ¬ (String.mk (List.flatten
      (List.replicate 24950 ['a', 'b']))).length < repetitionWindowSize from by
        rw [hmklen]; decide)]
    rw [show repetitionWindowSize = 200 from rfl, hdata1, hlenab, hwin1]
    decide
  have hdata2 : (String.mk (List.flatten (List.replicate 24950 ['a', 'b'])) ++
      String.mk (List.replicate 300 'c')).data =
      List.flatten (List.replicate 24950 ['a', 'b']) ++ List.replicate 300 'c' :=
    String.data_append ..
  have hlen2 : (String.mk (List.flatten (List.replicate 24950 ['a', 'b'])) ++
      String.mk (List.replicate 300 'c')).length = 50200 := by
    rw [String.length_append, hmklen,
      show (String.mk (List.replicate 300 'c')).length = 300 from List.length_replicate 300 'c']
  have hwin2 : List.drop ((List.flatten (List.replicate 24950 ['a', 'b']) ++
      List.replicate 300 'c').length - 200)
      (List.flatten (List.replicate 24950 ['a', 'b']) ++ List.replicate 300 'c') =
      List.replicate 200 'c' := by
    have hl : (List.flatten (List.replicate 24950 ['a', 'b']) ++
        List.replicate 300 'c').length - 200 =
        (List.flatten (List.replicate 24950 ['a', 'b'])).length + 100 := by
      rw [List.length_append, hlenab, List.length_replicate]
    rw [hl, List.drop_append, List.drop_replicate]
  have hrep2 : detectRepetition (String.mk (List.flatten (List.replicate 24950 ['a', 'b'])) ++
      String.mk (List.replicate 300 'c')) = true := by
    rw [detectRepetition_eq _ (show ¬ (String.mk (List.flatten
      (List.replicate 24950 ['a', 'b'])) ++
      String.mk (List.replicate 300 'c')).length < repetitionWindowSize from by
        rw [hlen2]; decide)]
    rw [show repetitionWindowSize = 200 from rfl, hdata2, hwin2]
    decide
  refine ⟨hrep2, ?_, ?_⟩
  · have hcat1 : initialStreamState.fullResponseText ++
        String.mk (List.flatten (List.replicate 24950 ['a', 'b'])) =
        String.mk (List.flatten (List.replicate 24950 ['a', 'b'])) :=
      String.empty_append _
    have h1 := streamStep_text_ok initialStreamState
      (String.mk (List.flatten (List.replicate 24950 ['a', 'b']))) rfl hd1ne
      (by rw [String.length_append,
        show initialStreamState.fullResponseText.length = 0 from rfl, hmklen]
          decide)
      (by rw [hcat1]; exact hrep1)
    have h2 := streamStep_text_too_long
      { initialStreamState with
          fullResponseText := initialStreamState.fullResponseText ++
            String.mk (List.flatten (List.replicate 24950 ['a', 'b'])),
          startedWriting := true,
          outputTextDeltaCount := initialStreamState.outputTextDeltaCount + 1 }
      (String.mk (List.replicate 300 'c')) rfl hd2ne
      (by rw [show ({ initialStreamState with
            fullResponseText := initialStreamState.fullResponseText ++
              String.mk (List.flatten (List.replicate 24950 ['a', 'b'])),
            startedWriting := true,
            outputTextDeltaCount :=
              initialStreamState.outputTextDeltaCount + 1 } :
          StreamState).fullResponseText =
            initialStreamState.fullResponseText ++
              String.mk (List.flatten (List.replicate 24950 ['a', 'b'])) from rfl,
          show initialStreamState.fullResponseText = "" from rfl,
          String.empty_append, String.length_append, hmklen,
          show (String.mk (List.replicate 300 'c')).length = 300 from
            List.length_replicate 300 'c']
          decide)
    rw [streamOnce_frt, runStream_pair, h1, h2]
    show initialStreamState.fullResponseText ++
        String.mk (List.flatten (List.replicate 24950 ['a', 'b'])) ++
        String.mk (List.replicate 300 'c') =
      String.mk (List.flatten (List.replicate 24950 ['a', 'b'])) ++
        String.mk (List.replicate 300 'c')
    rw [show initialStreamState.fullResponseText = "" from rfl, String.empty_append]
  · have hcat1 : initialStreamState.fullResponseText ++
        String.mk (List.flatten (List.replicate 24950 ['a', 'b'])) =
        String.mk (List.flatten (List.replicate 24950 ['a', 'b'])) :=
      String.empty_append _
    have h1 := streamStep_text_ok initialStreamState
      (String.mk (List.flatten (List.replicate 24950 ['a', 'b']))) rfl hd1ne
      (by rw [String.length_append,
        show initialStreamState.fullResponseText.length = 0 from rfl, hmklen]
          decide)
      (by rw [hcat1]; exact hrep1)
    have h2 := streamStep_text_too_long
      { initialStreamState with
          fullResponseText := initialStreamState.fullResponseText ++
            String.mk (List.flatten (List.replicate 24950 ['a', 'b'])),
          startedWriting := true,
          outputTextDeltaCount := initialStreamState.outputTextDeltaCount + 1 }
      (String.mk (List.replicate 300 'c')) rfl hd2ne
      (by rw [show ({ initialStreamState with
            fullResponseText := initialStreamState.fullResponseText ++
              String.mk (List.flatten (List.replicate 24950 ['a', 'b'])),
            startedWriting := true,
            outputTextDeltaCount :=
              initialStreamState.outputTextDeltaCount + 1 } :
          StreamState).fullResponseText =
            initialStreamState.fullResponseText ++
              String.mk (List.flatten (List.replicate 24950 ['a', 'b'])) from rfl,
          show initialStreamState.fullResponseText = "" from rfl,
          String.empty_append, String.length_append, hmklen,
          show (String.mk (List.replicate 300 'c')).length = 300 from
            List.length_replicate 300 'c']
          decide)
    rw [streamOnce_ir, runStream_pair, h1, h2]

set_option maxRecDepth 10000 in
/-- Concrete instance of the C7 amended theorem: a 200-character run of
`x` arriving as the first delta trips the repetition guard, and the
later delta is never accumulated. -/
theorem claim_C7_witness :
    (streamOnce ([] ++ .outputTextDelta (String.mk (List.replicate 200 'x')) ::
        [.outputTextDelta "later"])).incompleteReason = some "repetitive_output"
    ∧ (streamOnce ([] ++ .outputTextDelta (String.mk (List.replicate 200 'x')) ::
        [.outputTextDelta "later"])).fullResponseText =
        (runStream []).fullResponseText ++ String.mk (List.replicate 200 'x')
    ∧ streamOnce ([] ++ .outputTextDelta (String.mk (List.replicate 200 'x')) ::
        [.outputTextDelta "later"]) =
        streamOnce ([] ++ [.outputTextDelta (String.mk (List.replicate 200 'x'))]) :=
  claim_C7_repetitive_output_cutoff [] [.outputTextDelta "later"]
    (String.mk (List.replicate 200 'x')) (by decide) (by decide) (by decide) (by decide)
/-! ## C6: cache eviction invariant -/

/-- Inserting with `insLe` permutes to consing. -/
theorem insLe_perm (le : α → α → Bool) (a : α) :
    ∀ l : List α, (insLe le a l).Perm (a :: l)
  | [] => List.Perm.refl _
  | b :: t => by
    unfold insLe
    by_cases h : le b a = true
    · rw [if_pos h]
      exact ((insLe_perm le a t).cons b).trans (List.Perm.swap a b t)
    · rw [if_neg h]

/-- The sorting loop permutes to appending the accumulator. -/
theorem stableSortAux_perm (le : α → α → Bool) :
    ∀ (l acc : List α), (stableSortAux le acc l).Perm (acc ++ l)
  | [], acc => by simp [stableSortAux]
  | a :: t, acc => by
    unfold stableSortAux
    refine (stableSortAux_perm le t (insLe le a acc)).trans ?_
    refine ((insLe_perm le a acc).append_right t).trans ?_
    exact List.perm_middle.symm

/-- `stableSort` permutes its input. -/
theorem stableSort_perm (le : α → α → Bool) (l : List α) :
    (stableSort le l).Perm l := by
  simpa [stableSort] using stableSortAux_perm le l []

/-- Inserting into a `le`-sorted list keeps it sorted, for a total
transitive boolean `le`. -/
theorem insLe_pairwise (le : α → α → Bool)
    (htot : ∀ a b, le a b = true ∨ le b a = true)
    (htrans : ∀ a b c, le a b = true → le b c = true → le a c = true) (a : α) :
    ∀ l : List α, l.Pairwise (fun x y => le x y = true) →
      (insLe le a l).Pairwise (fun x y => le x y = true)
  | [], _ => List.Pairwise.cons (by intro y hy; cases hy) List.Pairwise.nil
  | b :: t, h => by
    rcases List.pairwise_cons.1 h with ⟨hb, ht⟩
    unfold insLe
    by_cases hba : le b a = true
    · rw [if_pos hba]
      refine List.pairwise_cons.2 ⟨?_, insLe_pairwise le htot htrans a t ht⟩
      intro y hy
      rcases List.mem_cons.1 ((insLe_perm le a t).mem_iff.1 hy) with rfl | hy'
      · exact hba
      · exact hb y hy'
    · rw [if_neg hba]
      have hab : le a b = true := (htot a b).resolve_right hba
      refine List.pairwise_cons.2 ⟨?_, h⟩
      intro y hy
      rcases List.mem_cons.1 hy with rfl | hy'
      · exact hab
      · exact htrans a b y hab (hb y hy')

/-- The sorting loop returns a sorted list from a sorted accumulator. -/
theorem stableSortAux_pairwise (le : α → α → Bool)
    (htot : ∀ a b, le a b = true ∨ le b a = true)
    (htrans : ∀ a b c, le a b = true → le b c = true → le a c = true) :
    ∀ (l acc : List α), acc.Pairwise (fun x y => le x y = true) →
      (stableSortAux le acc l).Pairwise (fun x y => le x y = true)
  | [], _, h => h
  | a :: t, acc, h =>
    stableSortAux_pairwise le htot htrans t (insLe le a acc)
      (insLe_pairwise le htot htrans a acc h)

/-- `stableSort` sorts, for a total transitive boolean `le`. -/
theorem stableSort_pairwise (le : α → α → Bool)
    (htot : ∀ a b, le a b = true ∨ le b a = true)
    (htrans : ∀ a b c, le a b = true → le b c = true → le a c = true)
    (l : List α) :
    (stableSort le l).Pairwise (fun x y => le x y = true) :=
  stableSortAux_pairwise le htot htrans l [] List.Pairwise.nil

/-- The cleanup comparator is total. -/
theorem entryLe_total (a b : String × CacheEntry) :
    entryLe a b = true ∨ entryLe b a = true := by
  simp only [entryLe, decide_eq_true_eq]
  omega

/-- The cleanup comparator is transitive. -/
theorem entryLe_trans (a b c : String × CacheEntry) :
    entryLe a b = true → entryLe b c = true → entryLe a c = true := by
  simp only [entryLe, decide_eq_true_eq]
  omega

/-- `Map.set` grows the map by at most one binding. -/
theorem cacheSet_length (cacheId : String) (e : CacheEntry) :
    ∀ c : ResultCache, (cacheSet cacheId e c).length ≤ c.length + 1
  | [] => by simp [cacheSet]
  | (k, e') :: t => by
    unfold cacheSet
    by_cases h : k = cacheId
    · rw [if_pos h]
      simp
    · rw [if_neg h]
      simpa using cacheSet_length cacheId e t

/-- When the surviving entries still fill the cache, the second
eviction stage removes at least half the capacity. -/
theorem cleanupCache_length_of_full (now : Nat) (c : ResultCache)
    (hfull : MAX_CACHE_ENTRIES ≤
      (c.filter (fun kv => ¬ RESULT_CACHE_TTL_MS < now - kv.2.timestamp)).length) :
    (cleanupCache now c).length ≤
      (c.filter (fun kv => ¬ RESULT_CACHE_TTL_MS < now - kv.2.timestamp)).length -
        MAX_CACHE_ENTRIES / 2 := by
  set c1 := c.filter (fun kv => ¬ RESULT_CACHE_TTL_MS < now - kv.2.timestamp) with hc1
  have hperm : (stableSort entryLe c1).Perm c1 := stableSort_perm entryLe c1
  set entries := stableSort entryLe c1 with hentries
  set q : String × CacheEntry → Bool :=
    fun kv => decide (kv.1 ∈ (entries.take (MAX_CACHE_ENTRIES / 2)).map Prod.fst)
    with hq
  have hcount : MAX_CACHE_ENTRIES / 2 ≤ List.countP q c1 := by
    rw [← hperm.countP_eq q]
    conv_rhs => rw [← List.take_append_drop (MAX_CACHE_ENTRIES / 2) entries]
    rw [List.countP_append]
    have hall : List.countP q (entries.take (MAX_CACHE_ENTRIES / 2)) =
        (entries.take (MAX_CACHE_ENTRIES / 2)).length :=
      List.countP_eq_length.2 (fun kv hkv => by
        simp only [hq, decide_eq_true_eq]
        exact List.mem_map_of_mem Prod.fst hkv)
    have hlen : MAX_CACHE_ENTRIES / 2 ≤ (entries.take (MAX_CACHE_ENTRIES / 2)).length := by
      rw [List.length_take]
      have : MAX_CACHE_ENTRIES / 2 ≤ entries.length := by
        rw [hperm.length_eq]
        omega
      omega
    omega
  have hsplit : c1.length =
      (List.filter q c1).length + (List.filter (fun x => !(q x)) c1).length :=
    List.length_eq_length_filter_add q
  have hkeep : (cleanupCache now c).length =
      (c1.filter (fun kv => !(q kv))).length := by
    unfold cleanupCache
    rw [← hc1, if_pos hfull, ← hentries]
    congr 1
    apply List.filter_congr
    intro kv _
    simp [hq]
  rw [hkeep]
  rw [List.countP_eq_length_filter] at hcount
  omega

/-- C6: inserting into a cache within capacity keeps it within
capacity; cleanup keeps only unexpired entries; and when the unexpired
entries still fill the cache, every entry evicted by the second stage
is no newer than every kept entry (oldest-first eviction). -/
theorem claim_C6_cache_eviction_invariant
    (cacheId toolName : String) (data : CacheData) (now : Nat) (c : ResultCache)
    (hlen : c.length ≤ MAX_CACHE_ENTRIES) :
    (setCachedResult cacheId toolName data now c).length ≤ MAX_CACHE_ENTRIES
    ∧ (∀ kv ∈ cleanupCache now c, ¬ RESULT_CACHE_TTL_MS < now - kv.2.timestamp)
    ∧ (MAX_CACHE_ENTRIES ≤
        (c.filter (fun kv => ¬ RESULT_CACHE_TTL_MS < now - kv.2.timestamp)).length →
        ∀ kv ∈ (stableSort entryLe
            (c.filter (fun kv => ¬ RESULT_CACHE_TTL_MS < now -
              kv.2.timestamp))).take (MAX_CACHE_ENTRIES / 2),
        ∀ kv' ∈ cleanupCache now c, entryLe kv kv' = true) := by
  refine ⟨?_, ?_, ?_⟩
  · unfold setCachedResult
    by_cases hfullc : MAX_CACHE_ENTRIES ≤ c.length
    · rw [if_pos hfullc]
      refine le_trans (cacheSet_length cacheId _ _) ?_
      by_cases hfull : MAX_CACHE_ENTRIES ≤
          (c.filter (fun kv => ¬ RESULT_CACHE_TTL_MS < now - kv.2.timestamp)).length
      · have h1 := cleanupCache_length_of_full now c hfull
        have h2 := List.length_filter_le
          (fun kv => decide (¬ RESULT_CACHE_TTL_MS < now - kv.2.timestamp)) c
        simp only [MAX_CACHE_ENTRIES] at *
        omega
      · unfold cleanupCache
        rw [if_neg hfull]
        simp only [MAX_CACHE_ENTRIES] at *
        omega
    · rw [if_neg hfullc]
      refine le_trans (cacheSet_length cacheId _ _) ?_
      simp only [MAX_CACHE_ENTRIES] at *
      omega
  · intro kv hkv
    unfold cleanupCache at hkv
    by_cases hfull : MAX_CACHE_ENTRIES ≤
        (c.filter (fun kv => ¬ RESULT_CACHE_TTL_MS < now - kv.2.timestamp)).length
    · rw [if_pos hfull] at hkv
      have := (List.mem_filter.1 (List.mem_filter.1 hkv).1).2
      simpa using this
    · rw [if_neg hfull] at hkv
      have := (List.mem_filter.1 hkv).2
      simpa using this
  · intro hfull kv hkv kv' hkv'
    unfold cleanupCache at hkv'
    rw [if_pos hfull] at hkv'
    set c1 := c.filter (fun kv => ¬ RESULT_CACHE_TTL_MS < now - kv.2.timestamp)
      with hc1
    have hperm : (stableSort entryLe c1).Perm c1 := stableSort_perm entryLe c1
    have hmem1 := List.mem_filter.1 hkv'
    have hkv'ent : kv' ∈ stableSort entryLe c1 := hperm.mem_iff.2 hmem1.1
    have hnotkey : kv'.1 ∉ ((stableSort entryLe c1).take
        (MAX_CACHE_ENTRIES / 2)).map Prod.fst := by
      have := hmem1.2
      simpa using this
    have hkv'drop : kv' ∈ (stableSort entryLe c1).drop (MAX_CACHE_ENTRIES / 2) := by
      have := hkv'ent
      rw [← List.take_append_drop (MAX_CACHE_ENTRIES / 2)
        (stableSort entryLe c1)] at this
      rcases List.mem_append.1 this with h | h
      · exact absurd (List.mem_map_of_mem Prod.fst h) hnotkey
      · exact h
    have hsorted := stableSort_pairwise entryLe entryLe_total entryLe_trans c1
    rw [← List.take_append_drop (MAX_CACHE_ENTRIES / 2)
      (stableSort entryLe c1)] at hsorted
    exact (List.pairwise_append.1 hsorted).2.2 kv hkv kv' hkv'drop

/-- Concrete instance of C6: inserting into a one-entry cache keeps it
within capacity. -/
theorem claim_C6_witness :
    (setCachedResult "k2" "Tool" ⟨JVal.null, none, none⟩ 7
        ([("k1", (⟨⟨JVal.null, none, none⟩, 3, "Tool"⟩ : CacheEntry))] : ResultCache)).length ≤ MAX_CACHE_ENTRIES
    ∧ (∀ kv ∈ cleanupCache 7 ([("k1", (⟨⟨JVal.null, none, none⟩, 3, "Tool"⟩ : CacheEntry))] : ResultCache),
        ¬ RESULT_CACHE_TTL_MS < 7 - kv.2.timestamp)
    ∧ (MAX_CACHE_ENTRIES ≤
        (([("k1", (⟨⟨JVal.null, none, none⟩, 3, "Tool"⟩ : CacheEntry))] : ResultCache).filter
          (fun kv => ¬ RESULT_CACHE_TTL_MS < 7 - kv.2.timestamp)).length →
        ∀ kv ∈ (stableSort entryLe
            (([("k1", (⟨⟨JVal.null, none, none⟩, 3, "Tool"⟩ : CacheEntry))] : ResultCache).filter
              (fun kv => ¬ RESULT_CACHE_TTL_MS < 7 -
                kv.2.timestamp))).take (MAX_CACHE_ENTRIES / 2),
        ∀ kv' ∈ cleanupCache 7 ([("k1", (⟨⟨JVal.null, none, none⟩, 3, "Tool"⟩ : CacheEntry))] : ResultCache),
          entryLe kv kv' = true) :=
  claim_C6_cache_eviction_invariant "k2" "Tool" ⟨JVal.null, none, none⟩ 7
    ([("k1", (⟨⟨JVal.null, none, none⟩, 3, "Tool"⟩ : CacheEntry))] : ResultCache) (by decide)

/-! ## C3: cache-key invariance under argument reordering -/

/-- `lexLe` is total. -/
theorem lexLe_total : ∀ a b : List Char, lexLe a b = true ∨ lexLe b a = true
  | [], _ => Or.inl rfl
  | _ :: _, [] => Or.inr rfl
  | a :: as, b :: bs => by
    unfold lexLe
    by_cases hab : a = b
    · subst hab
      rw [if_pos rfl, if_pos rfl]
      exact lexLe_total as bs
    · rw [if_neg hab, if_neg (Ne.symm hab)]
      rcases lt_trichotomy a b with h | h | h
      · exact Or.inl (decide_eq_true h)
      · exact absurd h hab
      · exact Or.inr (decide_eq_true h)

/-- `lexLe` is transitive. -/
theorem lexLe_trans : ∀ a b c : List Char,
    lexLe a b = true → lexLe b c = true → lexLe a c = true
  | [], _, _, _, _ => rfl
  | _ :: _, [], _, h1, _ => by simp [lexLe] at h1
  | _ :: _, _ :: _, [], _, h2 => by simp [lexLe] at h2
  | a :: as, b :: bs, c :: cs, h1, h2 => by
    unfold lexLe at h1 h2 ⊢
    by_cases hab : a = b
    · subst hab
      rw [if_pos rfl] at h1
      by_cases hac : a = c
      · subst hac
        rw [if_pos rfl] at h2 ⊢
        exact lexLe_trans as bs cs h1 h2
      · rw [if_neg hac] at h2 ⊢
        exact h2
    · rw [if_neg hab] at h1
      have hlt1 : a < b := of_decide_eq_true h1
      by_cases hbc : b = c
      · subst hbc
        rw [if_neg hab]
        exact decide_eq_true hlt1
      · rw [if_neg hbc] at h2
        have hlt2 : b < c := of_decide_eq_true h2
        have hac : a < c := lt_trans hlt1 hlt2
        rw [if_neg (ne_of_lt hac)]
        exact decide_eq_true hac

/-- `lexLe` is antisymmetric. -/
theorem lexLe_antisymm : ∀ a b : List Char,
    lexLe a b = true → lexLe b a = true → a = b
  | [], [], _, _ => rfl
  | [], _ :: _, _, h2 => by simp [lexLe] at h2
  | _ :: _, [], h1, _ => by simp [lexLe] at h1
  | a :: as, b :: bs, h1, h2 => by
    unfold lexLe at h1 h2
    by_cases hab : a = b
    · subst hab
      rw [if_pos rfl] at h1 h2
      rw [lexLe_antisymm as bs h1 h2]
    · rw [if_neg hab] at h1
      rw [if_neg (Ne.symm hab)] at h2
      exact absurd (of_decide_eq_true h2) (not_lt_of_lt (of_decide_eq_true h1))

/-- The string order used on cache-key fields is total. -/
theorem strLeB_total (a b : String) : strLeB a b = true ∨ strLeB b a = true :=
  lexLe_total a.data b.data

/-- The string order used on cache-key fields is transitive. -/
theorem strLeB_trans (a b c : String) :
    strLeB a b = true → strLeB b c = true → strLeB a c = true :=
  lexLe_trans a.data b.data c.data

/-- The string order used on cache-key fields is antisymmetric. -/
theorem strLeB_antisymm (a b : String) :
    strLeB a b = true → strLeB b a = true → a = b := by
  intro h1 h2
  have h3 := lexLe_antisymm a.data b.data h1 h2
  cases a
  cases b
  exact congrArg String.mk h3

/-- A key is absent exactly when `lookup` returns `none`. -/
theorem lookup_eq_none_iff : ∀ (o : JObj) (k : String),
    JObj.lookup k o = none ↔ k ∉ o.keys
  | .nil, k => by simp [JObj.lookup, JObj.keys]
  | .cons k' v t, k => by
    unfold JObj.lookup JObj.keys
    by_cases h : k' = k
    · subst h
      simp
    · simp only [if_neg h, List.mem_cons]
      rw [lookup_eq_none_iff t k]
      constructor
      · intro hn hm
        rcases hm with rfl | hm
        · exact h rfl
        · exact hn hm
      · intro hn hm
        exact hn (Or.inr hm)

/-- `applyReplacerVals` transforms exactly the looked-up value. -/
theorem lookup_applyReplacerVals (K : List String) :
    ∀ (fs : JObj) (k : String),
      JObj.lookup k (JObj.applyReplacerVals K fs) =
        (JObj.lookup k fs).map (JVal.applyReplacer K)
  | .nil, k => rfl
  | .cons k' v t, k => by
    unfold JObj.applyReplacerVals JObj.lookup
    by_cases h : k' = k
    · rw [if_pos h, if_pos h]
      rfl
    · rw [if_neg h, if_neg h]
      exact lookup_applyReplacerVals K t k

/-- `selectByReplacer` depends only on the object's lookups. -/
theorem selectByReplacer_congr : ∀ (Ks : List String) (a b : JObj),
    (∀ k, JObj.lookup k a = JObj.lookup k b) →
      a.selectByReplacer Ks = b.selectByReplacer Ks
  | [], _, _, _ => rfl
  | k :: ks, a, b, h => by
    unfold JObj.selectByReplacer
    rw [← h k]
    cases JObj.lookup k a with
    | none => exact selectByReplacer_congr ks a b h
    | some v => rw [selectByReplacer_congr ks a b h]

mutual

/-- Equivalent values serialize identically under any array replacer. -/
theorem JVal.applyReplacer_congr_val (K : List String) :
    ∀ v w, JVal.equivB v w = true →
      JVal.applyReplacer K v = JVal.applyReplacer K w
  | .null, w, h => by
    cases w <;> first
      | exact absurd h Bool.false_ne_true
      | rfl
  | .bool a, w, h => by
    cases w <;> first
      | exact absurd h Bool.false_ne_true
      | exact congrArg (fun x => JVal.applyReplacer K (JVal.bool x))
          (of_decide_eq_true h)
  | .num a, w, h => by
    cases w <;> first
      | exact absurd h Bool.false_ne_true
      | exact congrArg (fun x => JVal.applyReplacer K (JVal.num x))
          (of_decide_eq_true h)
  | .str a, w, h => by
    cases w <;> first
      | exact absurd h Bool.false_ne_true
      | exact congrArg (fun x => JVal.applyReplacer K (JVal.str x))
          (of_decide_eq_true h)
  | .arr a, w, h => by
    cases w with
    | arr b => exact congrArg JVal.arr (JArr.applyReplacer_congr_arr K a b h)
    | null => exact absurd h Bool.false_ne_true
    | bool x => exact absurd h Bool.false_ne_true
    | num x => exact absurd h Bool.false_ne_true
    | str x => exact absurd h Bool.false_ne_true
    | obj x => exact absurd h Bool.false_ne_true
  | .obj a, w, h => by
    cases w with
    | obj b =>
      simp only [JVal.equivB, Bool.and_eq_true] at h
      obtain ⟨hperm, hmatch⟩ := h
      have hpermP : a.keys.Perm b.keys := List.isPerm_iff.mp hperm
      have hlk : ∀ k, JObj.lookup k (JObj.applyReplacerVals K a) =
          JObj.lookup k (JObj.applyReplacerVals K b) := by
        intro k
        rw [lookup_applyReplacerVals, lookup_applyReplacerVals]
        cases hak : JObj.lookup k a with
        | none =>
          have hbk : JObj.lookup k b = none := by
            rw [lookup_eq_none_iff] at hak ⊢
            exact fun hmem => hak (hpermP.mem_iff.mpr hmem)
          rw [hbk]
        | some v =>
          obtain ⟨w', hbw, heqv⟩ := JObj.lookup_fieldsMatch K a b hmatch k v hak
          rw [hbw]
          simp only [Option.map_some']
          rw [heqv]
      exact congrArg JVal.obj (selectByReplacer_congr K _ _ hlk)
    | null => exact absurd h Bool.false_ne_true
    | bool x => exact absurd h Bool.false_ne_true
    | num x => exact absurd h Bool.false_ne_true
    | str x => exact absurd h Bool.false_ne_true
    | arr x => exact absurd h Bool.false_ne_true

/-- Equivalent arrays serialize identically under any array replacer. -/
theorem JArr.applyReplacer_congr_arr (K : List String) :
    ∀ a b, JArr.equivB a b = true →
      JArr.applyReplacer K a = JArr.applyReplacer K b
  | .nil, b, h => by
    cases b with
    | nil => rfl
    | cons hd' tl' => exact absurd h Bool.false_ne_true
  | .cons hd tl, b, h => by
    cases b with
    | nil => exact absurd h Bool.false_ne_true
    | cons hd' tl' =>
      simp only [JArr.equivB, Bool.and_eq_true] at h
      obtain ⟨h1, h2⟩ := h
      simp only [JArr.applyReplacer]
      rw [JVal.applyReplacer_congr_val K hd hd' h1,
        JArr.applyReplacer_congr_arr K tl tl' h2]

/-- A matched lookup produces replacer-equal values. -/
theorem JObj.lookup_fieldsMatch (K : List String) :
    ∀ (a b : JObj), JObj.fieldsMatch a b = true →
      ∀ k v, JObj.lookup k a = some v →
        ∃ w, JObj.lookup k b = some w ∧
          JVal.applyReplacer K v = JVal.applyReplacer K w
  | .nil, _, _, k, v, hl => by simp [JObj.lookup] at hl
  | .cons k' v' t, b, h, k, v, hl => by
    simp only [JObj.fieldsMatch, Bool.and_eq_true] at h
    obtain ⟨h1, h2⟩ := h
    by_cases hk : k' = k
    · subst hk
      have hl' : v' = v := by
        have hx : JObj.lookup k' (JObj.cons k' v' t) = some v' := by
          simp [JObj.lookup]
        rw [hx] at hl
        exact Option.some.inj hl
      rw [← hl']
      cases hb : JObj.lookup k' b with
      | none => rw [hb] at h1; exact absurd h1 Bool.false_ne_true
      | some w' =>
        rw [hb] at h1
        exact ⟨w', rfl, JVal.applyReplacer_congr_val K v' w' h1⟩
    · have hlt : JObj.lookup k t = some v := by
        simpa [JObj.lookup, hk] using hl
      exact JObj.lookup_fieldsMatch K t b h2 k v hlt

end

/-- C3: `generateCacheKey` gives the same key to every pair of argument
objects that are equivalent (same content, any key insertion order)
after the `offset`, `maxResults` and `_cacheId` fields are removed. -/
theorem claim_C3_cache_key_invariance
    (toolName : String) (a₁ a₂ : JObj)
    (heq : JVal.equivB (.obj (stripPaginationArgs a₁))
      (.obj (stripPaginationArgs a₂)) = true) :
    generateCacheKey toolName a₁ = generateCacheKey toolName a₂ := by
  have h := heq
  simp only [JVal.equivB, Bool.and_eq_true] at h
  obtain ⟨hperm, _⟩ := h
  have hpermP := List.isPerm_iff.mp hperm
  have hK : stableSort strLeB (stripPaginationArgs a₁).keys =
      stableSort strLeB (stripPaginationArgs a₂).keys := by
    refine @List.eq_of_perm_of_sorted _ (fun x y => strLeB x y = true)
      ⟨strLeB_antisymm⟩ _ _ ?_ ?_ ?_
    · exact ((stableSort_perm strLeB _).trans hpermP).trans
        (stableSort_perm strLeB _).symm
    · exact stableSort_pairwise strLeB strLeB_total strLeB_trans _
    · exact stableSort_pairwise strLeB strLeB_total strLeB_trans _
  simp only [generateCacheKey]
  rw [hK, JVal.applyReplacer_congr_val (stableSort strLeB
    (stripPaginationArgs a₂).keys) _ _ heq]

/-- Concrete instance of C3: reordered keys and different pagination
fields give the same cache key. -/
theorem claim_C3_witness :
    generateCacheKey "get_metrics"
        (JObj.ofList [("b", .num 1), ("a", .num 2), ("offset", .num 5)]) =
      generateCacheKey "get_metrics"
        (JObj.ofList [("a", .num 2), ("b", .num 1), ("maxResults", .num 7)]) :=
  claim_C3_cache_key_invariance "get_metrics" _ _ (by decide)

/-! ## C5: compression idempotence — metric-level lemmas -/

/-- Removing verbose metric fields twice equals removing them once. -/
theorem compressMetricFields_idem :
    ∀ fs, compressMetricFields (compressMetricFields fs) = compressMetricFields fs
  | .nil => rfl
  | .cons k v t => by
    by_cases h : k ∈ METRIC_FIELDS_TO_REMOVE
    · simp only [compressMetricFields, if_pos h]
      exact compressMetricFields_idem t
    · simp only [compressMetricFields, if_neg h]
      rw [compressMetricFields_idem t]

/-- The metric field filter never grows the object. -/
theorem compressMetricFields_length_le :
    ∀ fs, (compressMetricFields fs).length ≤ fs.length
  | .nil => Nat.le_refl _
  | .cons k v t => by
    have ih := compressMetricFields_length_le t
    by_cases h : k ∈ METRIC_FIELDS_TO_REMOVE
    · simp only [compressMetricFields, if_pos h, JObj.length]
      omega
    · simp only [compressMetricFields, if_neg h, JObj.length]
      omega

/-- An object without verbose metric keys is untouched by the filter. -/
theorem compressMetricFields_eq_self_of_keys :
    ∀ fs, (∀ k ∈ JObj.keys fs, k ∉ METRIC_FIELDS_TO_REMOVE) →
      compressMetricFields fs = fs
  | .nil, _ => rfl
  | .cons k v t, h => by
    have hk : k ∉ METRIC_FIELDS_TO_REMOVE := h k (by simp [JObj.keys])
    simp only [compressMetricFields, if_neg hk]
    rw [compressMetricFields_eq_self_of_keys t
      (fun k' hk' => h k' (by simp [JObj.keys, hk']))]

/-- A filter fixpoint has no verbose metric keys. -/
theorem keys_of_compressMetricFields_eq_self :
    ∀ fs, compressMetricFields fs = fs →
      ∀ k ∈ JObj.keys fs, k ∉ METRIC_FIELDS_TO_REMOVE
  | .nil, _, k, hk => by simp [JObj.keys] at hk
  | .cons k' v t, h, k, hk => by
    by_cases hk' : k' ∈ METRIC_FIELDS_TO_REMOVE
    · exfalso
      simp only [compressMetricFields, if_pos hk'] at h
      have h1 := congrArg JObj.length h
      have h2 := compressMetricFields_length_le t
      simp only [JObj.length] at h1
      omega
    · simp only [compressMetricFields, if_neg hk', JObj.cons.injEq] at h
      simp only [JObj.keys, List.mem_cons] at hk
      rcases hk with rfl | hk
      · exact hk'
      · exact keys_of_compressMetricFields_eq_self t h.2.2 k hk

/-- Cleaned objects keep a subset of the keys. -/
theorem keys_removeEmptyObj_subset :
    ∀ fs k, k ∈ JObj.keys (removeEmptyObj fs) → k ∈ JObj.keys fs
  | .nil, k, hk => hk
  | .cons k' v t, k, hk => by
    simp only [removeEmptyObj] at hk
    cases hr : removeEmptyObjects v with
    | some v' =>
      rw [hr] at hk
      simp only [JObj.keys, List.mem_cons] at hk ⊢
      rcases hk with rfl | hk
      · exact Or.inl rfl
      · exact Or.inr (keys_removeEmptyObj_subset t k hk)
    | none =>
      rw [hr] at hk
      simp only [JObj.keys, List.mem_cons]
      exact Or.inr (keys_removeEmptyObj_subset t k hk)

/-- `compressMetric` is idempotent. -/
theorem compressMetric_idem : ∀ v, compressMetric (compressMetric v) = compressMetric v
  | .obj fs => by
    simp only [compressMetric]
    rw [compressMetricFields_idem]
  | .arr l => by
    simp only [compressMetric]
    rw [compressMetricFields_idem]
  | .null => rfl
  | .bool _ => rfl
  | .num _ => rfl
  | .str _ => rfl

/-- The metric-map loop is idempotent. -/
theorem compressMetricsFields_idem :
    ∀ fs, compressMetricsFields (compressMetricsFields fs) = compressMetricsFields fs
  | .nil => rfl
  | .cons k v t => by
    simp only [compressMetricsFields]
    rw [compressMetric_idem, compressMetricsFields_idem t]

/-- A filter fixpoint stays a fixpoint after empty-value cleanup. -/
theorem compressMetricFields_removeEmptyObj
    (fs : JObj) (h : compressMetricFields fs = fs) :
    compressMetricFields (removeEmptyObj fs) = removeEmptyObj fs :=
  compressMetricFields_eq_self_of_keys _
    (fun k hk => keys_of_compressMetricFields_eq_self fs h k
      (keys_removeEmptyObj_subset fs k hk))

/-- A `compressMetric` fixpoint stays one after empty-value cleanup. -/
theorem compressMetric_removeEmptyObjects :
    ∀ v v', compressMetric v = v → removeEmptyObjects v = some v' →
      compressMetric v' = v'
  | .obj fs, v', h, hr => by
    simp only [compressMetric, JVal.obj.injEq] at h
    simp only [removeEmptyObjects] at hr
    by_cases hlen : 0 < (removeEmptyObj fs).length
    · rw [if_pos hlen] at hr
      cases hr
      simp only [compressMetric, JVal.obj.injEq]
      exact compressMetricFields_removeEmptyObj fs h
    · rw [if_neg hlen] at hr
      cases hr
  | .arr l, _, h, _ => by simp [compressMetric] at h
  | .null, v', _, hr => by
    cases hr
    rfl
  | .bool b, v', _, hr => by
    cases hr
    rfl
  | .num n, v', _, hr => by
    cases hr
    rfl
  | .str s, v', h, hr => by
    cases hr
    exact h

/-- A metric-map fixpoint stays one after empty-value cleanup. -/
theorem compressMetricsFields_removeEmptyObj :
    ∀ fs, compressMetricsFields fs = fs →
      compressMetricsFields (removeEmptyObj fs) = removeEmptyObj fs
  | .nil, _ => rfl
  | .cons k v t, h => by
    simp only [compressMetricsFields, JObj.cons.injEq] at h
    simp only [removeEmptyObj]
    cases hr : removeEmptyObjects v with
    | some v' =>
      simp only [compressMetricsFields, JObj.cons.injEq]
      exact ⟨trivial, compressMetric_removeEmptyObjects v v' h.2.1 hr,
        compressMetricsFields_removeEmptyObj t h.2.2⟩
    | none => exact compressMetricsFields_removeEmptyObj t h.2.2

/-! ## C5: monitor-level lemmas -/

/-- Setting the same key twice keeps only the last write. -/
theorem JObj.set_set : ∀ (o : JObj) (k : String) (a b : JVal),
    (o.set k a).set k b = o.set k b
  | .nil, k, a, b => by simp [JObj.set]
  | .cons k' v' t, k, a, b => by
    by_cases h : k' = k
    · simp [JObj.set, h]
    · simp [JObj.set, h, JObj.set_set t k a b]

/-- Writing back the value already stored changes nothing. -/
theorem JObj.set_eq_self_of_lookup : ∀ (o : JObj) (k : String) (v : JVal),
    o.lookup k = some v → o.set k v = o
  | .nil, k, v, h => by simp [JObj.lookup] at h
  | .cons k' v' t, k, v, h => by
    by_cases hk : k' = k
    · subst hk
      simp [JObj.lookup] at h
      simp [JObj.set, h]
    · simp only [JObj.lookup, if_neg hk] at h
      simp [JObj.set, hk, JObj.set_eq_self_of_lookup t k v h]

/-- Looked-up values of a stable object are stable. -/
theorem dedupStable_lookup : ∀ (fs : JObj) (k : String) (v : JVal),
    JObj.dedupStable fs = true → JObj.lookup k fs = some v →
      JVal.dedupStable v = true
  | .nil, k, v, _, h => by simp [JObj.lookup] at h
  | .cons k' v' t, k, v, hst, h => by
    simp only [JObj.dedupStable, Bool.and_eq_true] at hst
    by_cases hk : k' = k
    · subst hk
      simp [JObj.lookup] at h
      exact h ▸ hst.1
    · simp only [JObj.lookup, if_neg hk] at h
      exact dedupStable_lookup t k v hst.2 h

/-- Index-keying an array preserves value stability. -/
theorem dedupStable_objEntriesOfArr : ∀ (i : Nat) (l : JArr),
    JArr.dedupStable l = true →
      JObj.dedupStable (objEntriesOfArr i l) = true
  | _, .nil, _ => rfl
  | i, .cons h t, hst => by
    simp only [JArr.dedupStable, Bool.and_eq_true] at hst
    simp only [objEntriesOfArr, JObj.dedupStable, Bool.and_eq_true]
    exact ⟨hst.1, dedupStable_objEntriesOfArr (i + 1) t hst.2⟩

/-- A successful lookup survives empty-value cleanup when its value
cleans to something. -/
theorem lookup_removeEmptyObj_of_clean : ∀ (fs : JObj) (k : String) (v v' : JVal),
    JObj.lookup k fs = some v → removeEmptyObjects v = some v' →
      JObj.lookup k (removeEmptyObj fs) = some v'
  | .nil, k, v, v', h, _ => by simp [JObj.lookup] at h
  | .cons k' w t, k, v, v', h, hr => by
    by_cases hk : k' = k
    · subst hk
      simp [JObj.lookup] at h
      subst h
      simp [removeEmptyObj, hr, JObj.lookup]
    · simp only [JObj.lookup, if_neg hk] at h
      simp only [removeEmptyObj]
      cases hw : removeEmptyObjects w with
      | some w' =>
        simp only [JObj.lookup, if_neg hk]
        exact lookup_removeEmptyObj_of_clean t k v v' h hr
      | none => exact lookup_removeEmptyObj_of_clean t k v v' h hr

/-- An absent key stays absent after empty-value cleanup. -/
theorem lookup_removeEmptyObj_none : ∀ (fs : JObj) (k : String),
    JObj.lookup k fs = none → JObj.lookup k (removeEmptyObj fs) = none
  | .nil, k, _ => rfl
  | .cons k' w t, k, h => by
    by_cases hk : k' = k
    · simp [JObj.lookup, hk] at h
    · simp only [JObj.lookup, if_neg hk] at h
      simp only [removeEmptyObj]
      cases hw : removeEmptyObjects w with
      | some w' =>
        simp only [JObj.lookup, if_neg hk]
        exact lookup_removeEmptyObj_none t k h
      | none => exact lookup_removeEmptyObj_none t k h

/-- A successful lookup needs a nonempty object. -/
theorem lookup_pos_length : ∀ (fs : JObj) (k : String) (v : JVal),
    JObj.lookup k fs = some v → 0 < fs.length
  | .nil, k, v, h => by simp [JObj.lookup] at h
  | .cons _ _ t, _, _, _ => by simp [JObj.length]

/-- Scalars pass through empty-value cleanup unchanged. -/
theorem removeEmptyObjects_scalar : ∀ v : JVal, ¬ v.isObjectType = true →
    removeEmptyObjects v = some v
  | .null, _ => rfl
  | .bool _, _ => rfl
  | .num _, _ => rfl
  | .str _, _ => rfl
  | .arr _, h => absurd rfl h
  | .obj _, h => absurd rfl h

/-- The monitor field loop never grows the object. -/
theorem compressMonitorFields_length_le :
    ∀ fs, (compressMonitorFields fs).length ≤ fs.length
  | .nil => Nat.le_refl _
  | .cons k v t => by
    have ih := compressMonitorFields_length_le t
    unfold compressMonitorFields
    dsimp only
    repeat' split
    all_goals (simp only [JObj.length]; omega)

/-! ## C5: step equations for the monitor field loop -/

/-- Monitor loop: verbose keys are dropped. -/
theorem cmfMon_cons_drop1 (k : String) (v : JVal) (t : JObj)
    (h : k ∈ MONITOR_FIELDS_TO_REMOVE) :
    compressMonitorFields (.cons k v t) = compressMonitorFields t := by
  conv_lhs => unfold compressMonitorFields
  rw [if_pos h]

/-- Monitor loop: false flags are dropped. -/
theorem cmfMon_cons_drop2 (k : String) (v : JVal) (t : JObj)
    (h1 : k ∉ MONITOR_FIELDS_TO_REMOVE)
    (h2 : k ∈ FALSE_FLAGS_TO_REMOVE ∧ v = .bool false) :
    compressMonitorFields (.cons k v t) = compressMonitorFields t := by
  conv_lhs => unfold compressMonitorFields
  rw [if_neg h1, if_pos h2]

/-- Monitor loop: a nonempty compressed `metrics` object is kept. -/
theorem cmfMon_cons_metrics_pos (k : String) (v : JVal) (t : JObj) (o : JObj)
    (h1 : k ∉ MONITOR_FIELDS_TO_REMOVE)
    (h2 : ¬ (k ∈ FALSE_FLAGS_TO_REMOVE ∧ v = .bool false))
    (h3 : k = "metrics" ∧ v.truthy = true ∧ v.isObjectType = true)
    (ho : compressMetrics v = .obj o) (hlen : 0 < o.length) :
    compressMonitorFields (.cons k v t) =
      .cons k (.obj o) (compressMonitorFields t) := by
  conv_lhs => unfold compressMonitorFields
  rw [if_neg h1, if_neg h2, if_pos h3, ho]
  dsimp only
  rw [if_pos hlen]

/-- Monitor loop: an emptied compressed `metrics` object is dropped. -/
theorem cmfMon_cons_metrics_zero (k : String) (v : JVal) (t : JObj) (o : JObj)
    (h1 : k ∉ MONITOR_FIELDS_TO_REMOVE)
    (h2 : ¬ (k ∈ FALSE_FLAGS_TO_REMOVE ∧ v = .bool false))
    (h3 : k = "metrics" ∧ v.truthy = true ∧ v.isObjectType = true)
    (ho : compressMetrics v = .obj o) (hlen : ¬ 0 < o.length) :
    compressMonitorFields (.cons k v t) = compressMonitorFields t := by
  conv_lhs => unfold compressMonitorFields
  rw [if_neg h1, if_neg h2, if_pos h3, ho]
  dsimp only
  rw [if_neg hlen]

/-- Monitor loop: a kept `legacyTextParameters` gets its
`StatusInformation` deduplicated. -/
theorem cmfMon_cons_ltp (k : String) (t : JObj) (o : JObj) (s : String)
    (h1 : k ∉ MONITOR_FIELDS_TO_REMOVE)
    (h2 : ¬ (k ∈ FALSE_FLAGS_TO_REMOVE ∧ JVal.obj o = .bool false))
    (h3 : ¬ (k = "metrics" ∧ (JVal.obj o).truthy = true ∧
      (JVal.obj o).isObjectType = true))
    (h4 : k = "legacyTextParameters" ∧ hasTruthySI (.obj o) = true)
    (hs : (JVal.obj o).getField "StatusInformation" = some (.str s))
    (hcond : deduplicateStatusInformation s ≠ "" ∧
      trimTruthy (deduplicateStatusInformation s) = true) :
    compressMonitorFields (.cons k (.obj o) t) =
      .cons k (.obj (o.set "StatusInformation"
          (.str (deduplicateStatusInformation s))))
        (compressMonitorFields t) := by
  conv_lhs => unfold compressMonitorFields
  rw [if_neg h1, if_neg h2, if_neg h3, if_pos h4, hs]
  dsimp only
  rw [if_pos hcond]

/-- Monitor loop: `legacyTextParameters` whose deduplicated
`StatusInformation` fails the keep-condition is dropped. -/
theorem cmfMon_cons_ltp_fail (k : String) (v : JVal) (t : JObj) (s : String)
    (h1 : k ∉ MONITOR_FIELDS_TO_REMOVE)
    (h2 : ¬ (k ∈ FALSE_FLAGS_TO_REMOVE ∧ v = .bool false))
    (h3 : ¬ (k = "metrics" ∧ v.truthy = true ∧ v.isObjectType = true))
    (h4 : k = "legacyTextParameters" ∧ hasTruthySI v = true)
    (hs : v.getField "StatusInformation" = some (.str s))
    (hcond : ¬ (deduplicateStatusInformation s ≠ "" ∧
      trimTruthy (deduplicateStatusInformation s) = true)) :
    compressMonitorFields (.cons k v t) = compressMonitorFields t := by
  conv_lhs => unfold compressMonitorFields
  rw [if_neg h1, if_neg h2, if_neg h3, if_pos h4, hs]
  dsimp only
  rw [if_neg hcond]

/-- Monitor loop: `legacyTextParameters` with a non-string
`StatusInformation` is dropped by the embedding. -/
theorem cmfMon_cons_ltp_nonstr (k : String) (v w : JVal) (t : JObj)
    (h1 : k ∉ MONITOR_FIELDS_TO_REMOVE)
    (h2 : ¬ (k ∈ FALSE_FLAGS_TO_REMOVE ∧ v = .bool false))
    (h3 : ¬ (k = "metrics" ∧ v.truthy = true ∧ v.isObjectType = true))
    (h4 : k = "legacyTextParameters" ∧ hasTruthySI v = true)
    (hs : v.getField "StatusInformation" = some w)
    (hw : ∀ s, w ≠ .str s) :
    compressMonitorFields (.cons k v t) = compressMonitorFields t := by
  conv_lhs => unfold compressMonitorFields
  rw [if_neg h1, if_neg h2, if_neg h3, if_pos h4, hs]
  cases w with
  | str s => exact absurd rfl (hw s)
  | null => rfl
  | bool b => rfl
  | num n => rfl
  | arr l => rfl
  | obj fs => rfl

/-- Monitor loop: every other field passes through unchanged. -/
theorem cmfMon_cons_else (k : String) (v : JVal) (t : JObj)
    (h1 : k ∉ MONITOR_FIELDS_TO_REMOVE)
    (h2 : ¬ (k ∈ FALSE_FLAGS_TO_REMOVE ∧ v = .bool false))
    (h3 : ¬ (k = "metrics" ∧ v.truthy = true ∧ v.isObjectType = true))
    (h4 : ¬ (k = "legacyTextParameters" ∧ hasTruthySI v = true)) :
    compressMonitorFields (.cons k v t) =
      .cons k v (compressMonitorFields t) := by
  conv_lhs => unfold compressMonitorFields
  rw [if_neg h1, if_neg h2, if_neg h3, if_neg h4]

/-- `v.getField k` on an object is field lookup. -/
theorem getField_obj (o : JObj) (k : String) :
    (JVal.obj o).getField k = o.lookup k := rfl

/-- The compressed form of a `metrics` value is a metric-map fixpoint. -/
theorem compressMetrics_of_objectType (v : JVal) (o : JObj)
    (hobj : v.isObjectType = true) (ho : compressMetrics v = .obj o) :
    compressMetrics (.obj o) = .obj o := by
  cases v with
  | obj fv =>
    have heq : compressMetricsFields fv = o := by
      simpa [compressMetrics] using ho
    subst heq
    simp [compressMetrics, compressMetricsFields_idem]
  | arr lv =>
    have heq : compressMetricsFields (objEntriesOfArr 0 lv) = o := by
      simpa [compressMetrics] using ho
    subst heq
    simp [compressMetrics, compressMetricsFields_idem]
  | null => simp [JVal.isObjectType] at hobj
  | bool b => simp [JVal.isObjectType] at hobj
  | num n => simp [JVal.isObjectType] at hobj
  | str s => simp [JVal.isObjectType] at hobj

/-- An object-typed value compresses its metrics to an object. -/
theorem compressMetrics_obj_of_objectType (v : JVal)
    (hobj : v.isObjectType = true) : ∃ o, compressMetrics v = .obj o := by
  cases v with
  | obj fv => exact ⟨compressMetricsFields fv, rfl⟩
  | arr lv => exact ⟨compressMetricsFields (objEntriesOfArr 0 lv), rfl⟩
  | null => simp [JVal.isObjectType] at hobj
  | bool b => simp [JVal.isObjectType] at hobj
  | num n => simp [JVal.isObjectType] at hobj
  | str s => simp [JVal.isObjectType] at hobj

/-- A truthy `StatusInformation` under `legacyTextParameters` forces an
object value carrying it. -/
theorem hasTruthySI_shape (v : JVal) (h : hasTruthySI v = true) :
    ∃ o si, v = .obj o ∧ o.lookup "StatusInformation" = some si ∧
      si.truthy = true := by
  unfold hasTruthySI at h
  cases hsi : v.getField "StatusInformation" with
  | none => rw [hsi] at h; exact absurd h (by simp)
  | some si =>
    rw [hsi] at h
    cases v with
    | obj o => exact ⟨o, si, rfl, hsi, h⟩
    | null => exact absurd hsi (by simp [JVal.getField])
    | bool b => exact absurd hsi (by simp [JVal.getField])
    | num n => exact absurd hsi (by simp [JVal.getField])
    | str s => exact absurd hsi (by simp [JVal.getField])
    | arr l => exact absurd hsi (by simp [JVal.getField])

/-- The monitor field loop is idempotent on stable objects. -/
theorem compressMonitorFields_idem :
    ∀ fs, JObj.dedupStable fs = true →
      compressMonitorFields (compressMonitorFields fs) = compressMonitorFields fs
  | .nil, _ => rfl
  | .cons k v t, hst => by
    obtain ⟨hv, ht⟩ : JVal.dedupStable v = true ∧ JObj.dedupStable t = true := by
      simpa [JObj.dedupStable, Bool.and_eq_true] using hst
    have ih := compressMonitorFields_idem t ht
    by_cases c1 : k ∈ MONITOR_FIELDS_TO_REMOVE
    · rw [cmfMon_cons_drop1 k v t c1]
      exact ih
    by_cases c2 : k ∈ FALSE_FLAGS_TO_REMOVE ∧ v = .bool false
    · rw [cmfMon_cons_drop2 k v t c1 c2]
      exact ih
    by_cases c3 : k = "metrics" ∧ v.truthy = true ∧ v.isObjectType = true
    · obtain ⟨o, ho⟩ := compressMetrics_obj_of_objectType v c3.2.2
      by_cases hlen : 0 < o.length
      · rw [cmfMon_cons_metrics_pos k v t o c1 c2 c3 ho hlen]
        have c2' : ¬ (k ∈ FALSE_FLAGS_TO_REMOVE ∧ JVal.obj o = .bool false) := by
          rintro ⟨-, h⟩
          cases h
        have c3' : k = "metrics" ∧ (JVal.obj o).truthy = true ∧
            (JVal.obj o).isObjectType = true := ⟨c3.1, rfl, rfl⟩
        rw [cmfMon_cons_metrics_pos k (.obj o) (compressMonitorFields t) o c1 c2'
          c3' (compressMetrics_of_objectType v o c3.2.2 ho) hlen, ih]
      · rw [cmfMon_cons_metrics_zero k v t o c1 c2 c3 ho hlen]
        exact ih
    by_cases c4 : k = "legacyTextParameters" ∧ hasTruthySI v = true
    · obtain ⟨o, si, rfl, hsi, htr⟩ := hasTruthySI_shape v c4.2
      cases si with
      | str s =>
        by_cases hcond : deduplicateStatusInformation s ≠ "" ∧
            trimTruthy (deduplicateStatusInformation s) = true
        · rw [cmfMon_cons_ltp k t o s c1 c2 c3 c4 hsi hcond]
          have hdd : deduplicateStatusInformation
              (deduplicateStatusInformation s) =
              deduplicateStatusInformation s := by
            have hso : JObj.dedupStable o = true := by
              simpa [JVal.dedupStable] using hv
            have := dedupStable_lookup o "StatusInformation" (.str s) hso hsi
            simpa [JVal.dedupStable] using this
          have hsi' : (JVal.obj (o.set "StatusInformation"
              (.str (deduplicateStatusInformation s)))).getField
                "StatusInformation" =
              some (.str (deduplicateStatusInformation s)) := by
            rw [getField_obj, JObj.lookup_set_self]
          have c4' : k = "legacyTextParameters" ∧ hasTruthySI
              (.obj (o.set "StatusInformation"
                (.str (deduplicateStatusInformation s)))) = true := by
            refine ⟨c4.1, ?_⟩
            unfold hasTruthySI
            rw [hsi']
            exact decide_eq_true hcond.1
          have c2' : ¬ (k ∈ FALSE_FLAGS_TO_REMOVE ∧
              JVal.obj (o.set "StatusInformation"
                (.str (deduplicateStatusInformation s))) = .bool false) := by
            rintro ⟨-, h⟩
            cases h
          have c3' : ¬ (k = "metrics" ∧ (JVal.obj (o.set "StatusInformation"
              (.str (deduplicateStatusInformation s)))).truthy = true ∧
              (JVal.obj (o.set "StatusInformation"
                (.str (deduplicateStatusInformation s)))).isObjectType =
                  true) := by
            rintro ⟨h, -⟩
            rw [c4.1] at h
            exact absurd h (by decide)
          have hcond' : deduplicateStatusInformation
              (deduplicateStatusInformation s) ≠ "" ∧
              trimTruthy (deduplicateStatusInformation
                (deduplicateStatusInformation s)) = true := by
            rw [hdd]
            exact hcond
          rw [cmfMon_cons_ltp k (compressMonitorFields t)
            (o.set "StatusInformation" (.str (deduplicateStatusInformation s)))
            (deduplicateStatusInformation s) c1 c2' c3' c4' hsi' hcond']
          rw [hdd, JObj.set_set, ih]
        · rw [cmfMon_cons_ltp_fail k (.obj o) t s c1 c2 c3 c4 hsi hcond]
          exact ih
      | null =>
        rw [cmfMon_cons_ltp_nonstr k (.obj o) _ t c1 c2 c3 c4 hsi
          (fun s h => by cases h)]
        exact ih
      | bool b =>
        rw [cmfMon_cons_ltp_nonstr k (.obj o) _ t c1 c2 c3 c4 hsi
          (fun s h => by cases h)]
        exact ih
      | num n =>
        rw [cmfMon_cons_ltp_nonstr k (.obj o) _ t c1 c2 c3 c4 hsi
          (fun s h => by cases h)]
        exact ih
      | arr l =>
        rw [cmfMon_cons_ltp_nonstr k (.obj o) _ t c1 c2 c3 c4 hsi
          (fun s h => by cases h)]
        exact ih
      | obj fs' =>
        rw [cmfMon_cons_ltp_nonstr k (.obj o) _ t c1 c2 c3 c4 hsi
          (fun s h => by cases h)]
        exact ih
    · rw [cmfMon_cons_else k v t c1 c2 c3 c4,
        cmfMon_cons_else k v (compressMonitorFields t) c1 c2 c3 c4, ih]

/-- Cleanup of an object yields the cleaned object (when nonempty). -/
theorem removeEmptyObjects_obj (fs : JObj) (v' : JVal)
    (h : removeEmptyObjects (.obj fs) = some v') :
    v' = .obj (removeEmptyObj fs) ∧ 0 < (removeEmptyObj fs).length := by
  unfold removeEmptyObjects at h
  by_cases hlen : 0 < (removeEmptyObj fs).length
  · rw [if_pos hlen] at h
    exact ⟨(Option.some.inj h).symm, hlen⟩
  · rw [if_neg hlen] at h
    cases h

/-- Cleanup of an array yields the cleaned array (when nonempty). -/
theorem removeEmptyObjects_arr (l : JArr) (v' : JVal)
    (h : removeEmptyObjects (.arr l) = some v') :
    v' = .arr (removeEmptyArr l) ∧ 0 < (removeEmptyArr l).length := by
  unfold removeEmptyObjects at h
  by_cases hlen : 0 < (removeEmptyArr l).length
  · rw [if_pos hlen] at h
    exact ⟨(Option.some.inj h).symm, hlen⟩
  · rw [if_neg hlen] at h
    cases h

/-- Cleanup of a scalar returns it unchanged. -/
theorem removeEmptyObjects_scalar_inj (v v' : JVal)
    (hs : ¬ v.isObjectType = true) (h : removeEmptyObjects v = some v') :
    v' = v := by
  rw [removeEmptyObjects_scalar v hs] at h
  exact (Option.some.inj h).symm

/-- A falsy value is a scalar. -/
theorem falsy_scalar (v : JVal) (h : ¬ v.truthy = true) :
    ¬ v.isObjectType = true := by
  cases v with
  | arr l => exact absurd rfl h
  | obj fs => exact absurd rfl h
  | null => simp [JVal.isObjectType]
  | bool b => simp [JVal.isObjectType]
  | num n => simp [JVal.isObjectType]
  | str s => simp [JVal.isObjectType]

/-- A monitor-loop fixpoint stays one after empty-value cleanup. -/
theorem compressMonitorFields_clean :
    ∀ fs, compressMonitorFields fs = fs →
      compressMonitorFields (removeEmptyObj fs) = removeEmptyObj fs
  | .nil, _ => rfl
  | .cons k v t, hfix => by
    have hlenle := compressMonitorFields_length_le t
    by_cases c1 : k ∈ MONITOR_FIELDS_TO_REMOVE
    · rw [cmfMon_cons_drop1 k v t c1] at hfix
      have := congrArg JObj.length hfix
      simp only [JObj.length] at this
      omega
    by_cases c2 : k ∈ FALSE_FLAGS_TO_REMOVE ∧ v = .bool false
    · rw [cmfMon_cons_drop2 k v t c1 c2] at hfix
      have := congrArg JObj.length hfix
      simp only [JObj.length] at this
      omega
    by_cases c3 : k = "metrics" ∧ v.truthy = true ∧ v.isObjectType = true
    · obtain ⟨o, ho⟩ := compressMetrics_obj_of_objectType v c3.2.2
      by_cases hlen : 0 < o.length
      · rw [cmfMon_cons_metrics_pos k v t o c1 c2 c3 ho hlen] at hfix
        simp only [JObj.cons.injEq] at hfix
        obtain ⟨-, hvo, htt⟩ := hfix
        have ihres := compressMonitorFields_clean t htt
        have hcmfs : compressMetricsFields o = o := by
          have := compressMetrics_of_objectType v o c3.2.2 ho
          simpa [compressMetrics] using this
        subst hvo
        show compressMonitorFields (removeEmptyObj (.cons k (.obj o) t)) =
          removeEmptyObj (.cons k (.obj o) t)
        simp only [removeEmptyObj]
        by_cases hro : 0 < (removeEmptyObj o).length
        · rw [show removeEmptyObjects (JVal.obj o) =
            some (.obj (removeEmptyObj o)) from by
              unfold removeEmptyObjects
              rw [if_pos hro]]
          have c2' : ¬ (k ∈ FALSE_FLAGS_TO_REMOVE ∧
              JVal.obj (removeEmptyObj o) = .bool false) := by
            rintro ⟨-, h⟩
            cases h
          have c3' : k = "metrics" ∧
              (JVal.obj (removeEmptyObj o)).truthy = true ∧
              (JVal.obj (removeEmptyObj o)).isObjectType = true :=
            ⟨c3.1, rfl, rfl⟩
          have ho' : compressMetrics (.obj (removeEmptyObj o)) =
              .obj (removeEmptyObj o) := by
            show JVal.obj (compressMetricsFields (removeEmptyObj o)) = _
            rw [compressMetricsFields_removeEmptyObj o hcmfs]
          rw [cmfMon_cons_metrics_pos k (.obj (removeEmptyObj o))
            (removeEmptyObj t) (removeEmptyObj o) c1 c2' c3' ho' hro, ihres]
        · rw [show removeEmptyObjects (JVal.obj o) = none from by
            unfold removeEmptyObjects
            rw [if_neg hro]]
          exact ihres
      · rw [cmfMon_cons_metrics_zero k v t o c1 c2 c3 ho hlen] at hfix
        have := congrArg JObj.length hfix
        simp only [JObj.length] at this
        omega
    by_cases c4 : k = "legacyTextParameters" ∧ hasTruthySI v = true
    · obtain ⟨o, si, rfl, hsi, htr⟩ := hasTruthySI_shape v c4.2
      cases si with
      | str s =>
        by_cases hcond : deduplicateStatusInformation s ≠ "" ∧
            trimTruthy (deduplicateStatusInformation s) = true
        · rw [cmfMon_cons_ltp k t o s c1 c2 c3 c4 hsi hcond] at hfix
          simp only [JObj.cons.injEq, JVal.obj.injEq] at hfix
          obtain ⟨-, hset, htt⟩ := hfix
          have ihres := compressMonitorFields_clean t htt
          have hds : deduplicateStatusInformation s = s := by
            have h1 : JObj.lookup "StatusInformation"
                (o.set "StatusInformation"
                  (.str (deduplicateStatusInformation s))) =
                some (.str (deduplicateStatusInformation s)) :=
              JObj.lookup_set_self o "StatusInformation" _
            rw [hset] at h1
            rw [hsi] at h1
            exact (JVal.str.inj (Option.some.inj h1)).symm
          have hsurv : JObj.lookup "StatusInformation" (removeEmptyObj o) =
              some (.str s) :=
            lookup_removeEmptyObj_of_clean o "StatusInformation"
              (.str s) (.str s) hsi rfl
          have hro : 0 < (removeEmptyObj o).length :=
            lookup_pos_length _ _ _ hsurv
          show compressMonitorFields (removeEmptyObj (.cons k (.obj o) t)) =
            removeEmptyObj (.cons k (.obj o) t)
          simp only [removeEmptyObj]
          rw [show removeEmptyObjects (JVal.obj o) =
            some (.obj (removeEmptyObj o)) from by
              unfold removeEmptyObjects
              rw [if_pos hro]]
          have hs_ne : s ≠ "" := by
            have := hcond.1
            rw [hds] at this
            exact this
          have c2' : ¬ (k ∈ FALSE_FLAGS_TO_REMOVE ∧
              JVal.obj (removeEmptyObj o) = .bool false) := by
            rintro ⟨-, h⟩
            cases h
          have c3' : ¬ (k = "metrics" ∧
              (JVal.obj (removeEmptyObj o)).truthy = true ∧
              (JVal.obj (removeEmptyObj o)).isObjectType = true) := by
            rintro ⟨h, -⟩
            rw [c4.1] at h
            exact absurd h (by decide)
          have c4' : k = "legacyTextParameters" ∧
              hasTruthySI (.obj (removeEmptyObj o)) = true := by
            refine ⟨c4.1, ?_⟩
            unfold hasTruthySI
            rw [getField_obj, hsurv]
            exact decide_eq_true hs_ne
          rw [cmfMon_cons_ltp k (removeEmptyObj t) (removeEmptyObj o) s c1 c2'
            c3' c4' hsurv hcond]
          rw [hds, JObj.set_eq_self_of_lookup _ _ _ hsurv, ihres]
        · rw [cmfMon_cons_ltp_fail k (.obj o) t s c1 c2 c3 c4 hsi hcond] at hfix
          have := congrArg JObj.length hfix
          simp only [JObj.length] at this
          omega
      | null => exact absurd htr (by simp [JVal.truthy])
      | bool b =>
        rw [cmfMon_cons_ltp_nonstr k (.obj o) _ t c1 c2 c3 c4 hsi
          (fun s h => by cases h)] at hfix
        have := congrArg JObj.length hfix
        simp only [JObj.length] at this
        omega
      | num n =>
        rw [cmfMon_cons_ltp_nonstr k (.obj o) _ t c1 c2 c3 c4 hsi
          (fun s h => by cases h)] at hfix
        have := congrArg JObj.length hfix
        simp only [JObj.length] at this
        omega
      | arr l =>
        rw [cmfMon_cons_ltp_nonstr k (.obj o) _ t c1 c2 c3 c4 hsi
          (fun s h => by cases h)] at hfix
        have := congrArg JObj.length hfix
        simp only [JObj.length] at this
        omega
      | obj fs' =>
        rw [cmfMon_cons_ltp_nonstr k (.obj o) _ t c1 c2 c3 c4 hsi
          (fun s h => by cases h)] at hfix
        have := congrArg JObj.length hfix
        simp only [JObj.length] at this
        omega
    · rw [cmfMon_cons_else k v t c1 c2 c3 c4] at hfix
      simp only [JObj.cons.injEq] at hfix
      obtain ⟨-, -, htt⟩ := hfix
      have ihres := compressMonitorFields_clean t htt
      show compressMonitorFields (removeEmptyObj (.cons k v t)) =
        removeEmptyObj (.cons k v t)
      simp only [removeEmptyObj]
      cases hr : removeEmptyObjects v with
      | none => exact ihres
      | some v' =>
        have c2' : ¬ (k ∈ FALSE_FLAGS_TO_REMOVE ∧ v' = .bool false) := by
          rintro ⟨hf, rfl⟩
          cases v with
          | obj fs => exact absurd (removeEmptyObjects_obj fs _ hr).1 (by simp)
          | arr l => exact absurd (removeEmptyObjects_arr l _ hr).1 (by simp)
          | null => exact absurd (removeEmptyObjects_scalar_inj _ _
              (by simp [JVal.isObjectType]) hr) (by simp)
          | bool b =>
            have := removeEmptyObjects_scalar_inj _ _
              (by simp [JVal.isObjectType]) hr
            exact c2 ⟨hf, this ▸ rfl⟩
          | num n => exact absurd (removeEmptyObjects_scalar_inj _ _
              (by simp [JVal.isObjectType]) hr) (by simp)
          | str s => exact absurd (removeEmptyObjects_scalar_inj _ _
              (by simp [JVal.isObjectType]) hr) (by simp)
        have c3' : ¬ (k = "metrics" ∧ v'.truthy = true ∧
            v'.isObjectType = true) := by
          rintro ⟨hk, htru, hobj⟩
          cases v with
          | obj fs =>
            exact c3 ⟨hk, rfl, rfl⟩
          | arr l =>
            exact c3 ⟨hk, rfl, rfl⟩
          | null =>
            have := removeEmptyObjects_scalar_inj _ _
              (by simp [JVal.isObjectType]) hr
            subst this
            simp [JVal.isObjectType] at hobj
          | bool b =>
            have := removeEmptyObjects_scalar_inj _ _
              (by simp [JVal.isObjectType]) hr
            subst this
            simp [JVal.isObjectType] at hobj
          | num n =>
            have := removeEmptyObjects_scalar_inj _ _
              (by simp [JVal.isObjectType]) hr
            subst this
            simp [JVal.isObjectType] at hobj
          | str s =>
            have := removeEmptyObjects_scalar_inj _ _
              (by simp [JVal.isObjectType]) hr
            subst this
            simp [JVal.isObjectType] at hobj
        have c4' : ¬ (k = "legacyTextParameters" ∧
            hasTruthySI v' = true) := by
          rintro ⟨hk, hsi'⟩
          obtain ⟨o'', si', hv', hlk', htr'⟩ := hasTruthySI_shape v' hsi'
          cases v with
          | obj fs =>
            obtain ⟨hv'', -⟩ := removeEmptyObjects_obj fs _ hr
            rw [hv''] at hv'
            cases hv'
            cases hlk0 : JObj.lookup "StatusInformation" fs with
            | none =>
              rw [lookup_removeEmptyObj_none fs _ hlk0] at hlk'
              cases hlk'
            | some si0 =>
              by_cases htr0 : si0.truthy = true
              · refine absurd ?_ c4
                refine ⟨hk, ?_⟩
                unfold hasTruthySI
                rw [getField_obj, hlk0]
                exact htr0
              · have hscal := falsy_scalar si0 htr0
                have := lookup_removeEmptyObj_of_clean fs _ si0 si0 hlk0
                  (removeEmptyObjects_scalar si0 hscal)
                rw [this] at hlk'
                cases hlk'
                exact htr0 htr'
          | arr l =>
            obtain ⟨hv'', -⟩ := removeEmptyObjects_arr l _ hr
            rw [hv''] at hv'
            cases hv'
          | null =>
            have := removeEmptyObjects_scalar_inj _ _
              (by simp [JVal.isObjectType]) hr
            subst this
            cases hv'
          | bool b =>
            have := removeEmptyObjects_scalar_inj _ _
              (by simp [JVal.isObjectType]) hr
            subst this
            cases hv'
          | num n =>
            have := removeEmptyObjects_scalar_inj _ _
              (by simp [JVal.isObjectType]) hr
            subst this
            cases hv'
          | str s =>
            have := removeEmptyObjects_scalar_inj _ _
              (by simp [JVal.isObjectType]) hr
            subst this
            cases hv'
        rw [cmfMon_cons_else k v' (removeEmptyObj t) c1 c2' c3' c4', ihres]

/-! ## C5: telemetry-level lemmas -/

/-- Telemetry loop: a `monitors` array gets each monitor compressed. -/
theorem cto_cons_monitors (k : String) (l : JArr) (t : JObj)
    (h : k = "monitors") :
    compressTelemetryObj (.cons k (.arr l) t) =
      .cons k (.arr (mapCompressMonitor l)) (compressTelemetryObj t) := by
  conv_lhs => unfold compressTelemetryObj
  rw [if_pos ⟨h, rfl⟩]

/-- Telemetry loop: other object-typed values recurse. -/
theorem cto_cons_objtype (k : String) (v : JVal) (t : JObj)
    (h1 : ¬ (k = "monitors" ∧ v.isArr = true)) (h2 : v.isObjectType = true) :
    compressTelemetryObj (.cons k v t) =
      .cons k (compressMcpTelemetry v) (compressTelemetryObj t) := by
  conv_lhs => unfold compressTelemetryObj
  rw [if_neg h1, if_pos h2]

/-- Telemetry loop: primitives pass through. -/
theorem cto_cons_else (k : String) (v : JVal) (t : JObj)
    (h1 : ¬ (k = "monitors" ∧ v.isArr = true))
    (h2 : ¬ v.isObjectType = true) :
    compressTelemetryObj (.cons k v t) =
      .cons k v (compressTelemetryObj t) := by
  conv_lhs => unfold compressTelemetryObj
  rw [if_neg h1, if_neg h2]

/-- Empty-value cleanup preserves array-ness. -/
theorem removeEmptyObjects_isArr : ∀ (v v' : JVal),
    removeEmptyObjects v = some v' → v'.isArr = v.isArr
  | .obj fs, v', h => by rw [(removeEmptyObjects_obj fs v' h).1]; rfl
  | .arr l, v', h => by rw [(removeEmptyObjects_arr l v' h).1]; rfl
  | .null, v', h => by rw [removeEmptyObjects_scalar_inj _ _ (by simp [JVal.isObjectType]) h]
  | .bool b, v', h => by rw [removeEmptyObjects_scalar_inj _ _ (by simp [JVal.isObjectType]) h]
  | .num n, v', h => by rw [removeEmptyObjects_scalar_inj _ _ (by simp [JVal.isObjectType]) h]
  | .str s, v', h => by rw [removeEmptyObjects_scalar_inj _ _ (by simp [JVal.isObjectType]) h]

/-- Empty-value cleanup preserves object-typedness. -/
theorem removeEmptyObjects_isObjectType : ∀ (v v' : JVal),
    removeEmptyObjects v = some v' → v'.isObjectType = v.isObjectType
  | .obj fs, v', h => by rw [(removeEmptyObjects_obj fs v' h).1]; rfl
  | .arr l, v', h => by rw [(removeEmptyObjects_arr l v' h).1]; rfl
  | .null, v', h => by rw [removeEmptyObjects_scalar_inj _ _ (by simp [JVal.isObjectType]) h]
  | .bool b, v', h => by rw [removeEmptyObjects_scalar_inj _ _ (by simp [JVal.isObjectType]) h]
  | .num n, v', h => by rw [removeEmptyObjects_scalar_inj _ _ (by simp [JVal.isObjectType]) h]
  | .str s, v', h => by rw [removeEmptyObjects_scalar_inj _ _ (by simp [JVal.isObjectType]) h]

/-- Telemetry compression preserves array-ness. -/
theorem compressMcpTelemetry_isArr : ∀ v : JVal,
    (compressMcpTelemetry v).isArr = v.isArr
  | .obj _ => rfl
  | .arr _ => rfl
  | .null => rfl
  | .bool _ => rfl
  | .num _ => rfl
  | .str _ => rfl

/-- Telemetry compression preserves object-typedness. -/
theorem compressMcpTelemetry_isObjectType : ∀ v : JVal,
    (compressMcpTelemetry v).isObjectType = v.isObjectType
  | .obj _ => rfl
  | .arr _ => rfl
  | .null => rfl
  | .bool _ => rfl
  | .num _ => rfl
  | .str _ => rfl

/-- `compressMonitor` is idempotent on stable values. -/
theorem compressMonitor_idem : ∀ m, JVal.dedupStable m = true →
    compressMonitor (compressMonitor m) = compressMonitor m
  | .obj fs, hst => by
    simp only [compressMonitor, JVal.obj.injEq]
    exact compressMonitorFields_idem fs (by simpa [JVal.dedupStable] using hst)
  | .arr l, hst => by
    simp only [compressMonitor, JVal.obj.injEq]
    exact compressMonitorFields_idem _ (dedupStable_objEntriesOfArr 0 l
      (by simpa [JVal.dedupStable] using hst))
  | .null, _ => rfl
  | .bool _, _ => rfl
  | .num _, _ => rfl
  | .str _, _ => rfl

/-- A `compressMonitor` fixpoint stays one after empty-value cleanup. -/
theorem compressMonitor_clean : ∀ m, compressMonitor m = m →
    ∀ m', removeEmptyObjects m = some m' → compressMonitor m' = m'
  | .obj fs, hfix, m', hr => by
    obtain ⟨rfl, -⟩ := removeEmptyObjects_obj fs m' hr
    simp only [compressMonitor, JVal.obj.injEq] at hfix ⊢
    exact compressMonitorFields_clean fs hfix
  | .arr l, hfix, _, _ => by simp [compressMonitor] at hfix
  | .null, hfix, m', hr => by
    rw [removeEmptyObjects_scalar_inj _ _ (by simp [JVal.isObjectType]) hr]
    exact hfix
  | .bool b, hfix, m', hr => by
    rw [removeEmptyObjects_scalar_inj _ _ (by simp [JVal.isObjectType]) hr]
    exact hfix
  | .num n, hfix, m', hr => by
    rw [removeEmptyObjects_scalar_inj _ _ (by simp [JVal.isObjectType]) hr]
    exact hfix
  | .str s, hfix, m', hr => by
    rw [removeEmptyObjects_scalar_inj _ _ (by simp [JVal.isObjectType]) hr]
    exact hfix

/-- Monitor-mapping is idempotent on stable arrays. -/
theorem mapCompressMonitor_idem : ∀ l, JArr.dedupStable l = true →
    mapCompressMonitor (mapCompressMonitor l) = mapCompressMonitor l
  | .nil, _ => rfl
  | .cons h t, hst => by
    obtain ⟨hh, ht⟩ : JVal.dedupStable h = true ∧ JArr.dedupStable t = true := by
      simpa [JArr.dedupStable, Bool.and_eq_true] using hst
    simp only [mapCompressMonitor, JArr.cons.injEq]
    exact ⟨compressMonitor_idem h hh, mapCompressMonitor_idem t ht⟩

/-- A monitor-mapping fixpoint stays one after empty-value cleanup. -/
theorem mapCompressMonitor_clean : ∀ l, mapCompressMonitor l = l →
    mapCompressMonitor (removeEmptyArr l) = removeEmptyArr l
  | .nil, _ => rfl
  | .cons h t, hfix => by
    simp only [mapCompressMonitor, JArr.cons.injEq] at hfix
    obtain ⟨hh, ht⟩ := hfix
    simp only [removeEmptyArr]
    cases hr : removeEmptyObjects h with
    | some h' =>
      simp only [mapCompressMonitor, JArr.cons.injEq]
      exact ⟨compressMonitor_clean h hh h' hr, mapCompressMonitor_clean t ht⟩
    | none => exact mapCompressMonitor_clean t ht

mutual

/-- Telemetry compression is idempotent on stable values. -/
theorem compressMcpTelemetry_idem : ∀ v, JVal.dedupStable v = true →
    compressMcpTelemetry (compressMcpTelemetry v) = compressMcpTelemetry v
  | .obj fs, hst => by
    simp only [compressMcpTelemetry, JVal.obj.injEq]
    exact compressTelemetryObj_idem fs (by simpa [JVal.dedupStable] using hst)
  | .arr l, hst => by
    simp only [compressMcpTelemetry, JVal.arr.injEq]
    exact compressTelemetryArr_idem l (by simpa [JVal.dedupStable] using hst)
  | .null, _ => rfl
  | .bool _, _ => rfl
  | .num _, _ => rfl
  | .str _, _ => rfl

/-- Elementwise telemetry compression is idempotent on stable arrays. -/
theorem compressTelemetryArr_idem : ∀ l, JArr.dedupStable l = true →
    compressTelemetryArr (compressTelemetryArr l) = compressTelemetryArr l
  | .nil, _ => rfl
  | .cons h t, hst => by
    obtain ⟨hh, ht⟩ : JVal.dedupStable h = true ∧ JArr.dedupStable t = true := by
      simpa [JArr.dedupStable, Bool.and_eq_true] using hst
    simp only [compressTelemetryArr, JArr.cons.injEq]
    exact ⟨compressMcpTelemetry_idem h hh, compressTelemetryArr_idem t ht⟩

/-- The telemetry field loop is idempotent on stable objects. -/
theorem compressTelemetryObj_idem : ∀ fs, JObj.dedupStable fs = true →
    compressTelemetryObj (compressTelemetryObj fs) = compressTelemetryObj fs
  | .nil, _ => rfl
  | .cons k v t, hst => by
    obtain ⟨hv, ht⟩ : JVal.dedupStable v = true ∧ JObj.dedupStable t = true := by
      simpa [JObj.dedupStable, Bool.and_eq_true] using hst
    have ih := compressTelemetryObj_idem t ht
    by_cases b1 : k = "monitors" ∧ v.isArr = true
    · obtain ⟨hk, harr⟩ := b1
      cases v with
      | arr l =>
        rw [cto_cons_monitors k l t hk,
          cto_cons_monitors k (mapCompressMonitor l) (compressTelemetryObj t) hk,
          mapCompressMonitor_idem l (by simpa [JVal.dedupStable] using hv), ih]
      | obj fs => simp [JVal.isArr] at harr
      | null => simp [JVal.isArr] at harr
      | bool b => simp [JVal.isArr] at harr
      | num n => simp [JVal.isArr] at harr
      | str s => simp [JVal.isArr] at harr
    by_cases b2 : v.isObjectType = true
    · rw [cto_cons_objtype k v t b1 b2]
      have b1' : ¬ (k = "monitors" ∧ (compressMcpTelemetry v).isArr = true) := by
        rw [compressMcpTelemetry_isArr]
        exact b1
      have b2' : (compressMcpTelemetry v).isObjectType = true := by
        rw [compressMcpTelemetry_isObjectType]
        exact b2
      rw [cto_cons_objtype k (compressMcpTelemetry v) (compressTelemetryObj t)
        b1' b2', compressMcpTelemetry_idem v hv, ih]
    · rw [cto_cons_else k v t b1 b2, cto_cons_else k v (compressTelemetryObj t)
        b1 b2, ih]

end

mutual

/-- Empty-value cleanup is idempotent. -/
theorem removeEmptyObjects_idem : ∀ (v v' : JVal),
    removeEmptyObjects v = some v' → removeEmptyObjects v' = some v'
  | .obj fs, v', h => by
    obtain ⟨rfl, hlen⟩ := removeEmptyObjects_obj fs v' h
    unfold removeEmptyObjects
    rw [removeEmptyObj_idem fs, if_pos hlen]
  | .arr l, v', h => by
    obtain ⟨rfl, hlen⟩ := removeEmptyObjects_arr l v' h
    unfold removeEmptyObjects
    rw [removeEmptyArr_idem l, if_pos hlen]
  | .null, v', h => by
    rw [removeEmptyObjects_scalar_inj _ _ (by simp [JVal.isObjectType]) h]
    rfl
  | .bool b, v', h => by
    rw [removeEmptyObjects_scalar_inj _ _ (by simp [JVal.isObjectType]) h]
    rfl
  | .num n, v', h => by
    rw [removeEmptyObjects_scalar_inj _ _ (by simp [JVal.isObjectType]) h]
    rfl
  | .str s, v', h => by
    rw [removeEmptyObjects_scalar_inj _ _ (by simp [JVal.isObjectType]) h]
    rfl

/-- Array cleanup is idempotent. -/
theorem removeEmptyArr_idem : ∀ l : JArr,
    removeEmptyArr (removeEmptyArr l) = removeEmptyArr l
  | .nil => rfl
  | .cons h t => by
    simp only [removeEmptyArr]
    cases hr : removeEmptyObjects h with
    | some h' =>
      simp only [removeEmptyArr]
      rw [removeEmptyObjects_idem h h' hr, removeEmptyArr_idem t]
    | none => exact removeEmptyArr_idem t

/-- Object cleanup is idempotent. -/
theorem removeEmptyObj_idem : ∀ fs : JObj,
    removeEmptyObj (removeEmptyObj fs) = removeEmptyObj fs
  | .nil => rfl
  | .cons k v t => by
    simp only [removeEmptyObj]
    cases hr : removeEmptyObjects v with
    | some v' =>
      simp only [removeEmptyObj]
      rw [removeEmptyObjects_idem v v' hr, removeEmptyObj_idem t]
    | none => exact removeEmptyObj_idem t

end

mutual

/-- A telemetry-compression fixpoint stays one after cleanup. -/
theorem compressMcpTelemetry_clean : ∀ v, compressMcpTelemetry v = v →
    ∀ v', removeEmptyObjects v = some v' → compressMcpTelemetry v' = v'
  | .obj fs, hfix, v', hr => by
    obtain ⟨rfl, -⟩ := removeEmptyObjects_obj fs v' hr
    simp only [compressMcpTelemetry, JVal.obj.injEq] at hfix ⊢
    exact compressTelemetryObj_clean fs hfix
  | .arr l, hfix, v', hr => by
    obtain ⟨rfl, -⟩ := removeEmptyObjects_arr l v' hr
    simp only [compressMcpTelemetry, JVal.arr.injEq] at hfix ⊢
    exact compressTelemetryArr_clean l hfix
  | .null, hfix, v', hr => by
    rw [removeEmptyObjects_scalar_inj _ _ (by simp [JVal.isObjectType]) hr]
    exact hfix
  | .bool b, hfix, v', hr => by
    rw [removeEmptyObjects_scalar_inj _ _ (by simp [JVal.isObjectType]) hr]
    exact hfix
  | .num n, hfix, v', hr => by
    rw [removeEmptyObjects_scalar_inj _ _ (by simp [JVal.isObjectType]) hr]
    exact hfix
  | .str s, hfix, v', hr => by
    rw [removeEmptyObjects_scalar_inj _ _ (by simp [JVal.isObjectType]) hr]
    exact hfix

/-- An elementwise telemetry fixpoint stays one after cleanup. -/
theorem compressTelemetryArr_clean : ∀ l, compressTelemetryArr l = l →
    compressTelemetryArr (removeEmptyArr l) = removeEmptyArr l
  | .nil, _ => rfl
  | .cons h t, hfix => by
    simp only [compressTelemetryArr, JArr.cons.injEq] at hfix
    obtain ⟨hh, ht⟩ := hfix
    simp only [removeEmptyArr]
    cases hr : removeEmptyObjects h with
    | some h' =>
      simp only [compressTelemetryArr, JArr.cons.injEq]
      exact ⟨compressMcpTelemetry_clean h hh h' hr,
        compressTelemetryArr_clean t ht⟩
    | none => exact compressTelemetryArr_clean t ht

/-- A telemetry field-loop fixpoint stays one after cleanup. -/
theorem compressTelemetryObj_clean : ∀ fs, compressTelemetryObj fs = fs →
    compressTelemetryObj (removeEmptyObj fs) = removeEmptyObj fs
  | .nil, _ => rfl
  | .cons k v t, hfix => by
    by_cases b1 : k = "monitors" ∧ v.isArr = true
    · obtain ⟨hk, harr⟩ := b1
      cases v with
      | arr l =>
        rw [cto_cons_monitors k l t hk] at hfix
        simp only [JObj.cons.injEq, JVal.arr.injEq] at hfix
        obtain ⟨-, hmap, ht⟩ := hfix
        have ihres := compressTelemetryObj_clean t ht
        show compressTelemetryObj (removeEmptyObj (.cons k (.arr l) t)) =
          removeEmptyObj (.cons k (.arr l) t)
        simp only [removeEmptyObj]
        by_cases hra : 0 < (removeEmptyArr l).length
        · rw [show removeEmptyObjects (JVal.arr l) =
            some (.arr (removeEmptyArr l)) from by
              unfold removeEmptyObjects
              rw [if_pos hra]]
          rw [cto_cons_monitors k (removeEmptyArr l) (removeEmptyObj t) hk,
            mapCompressMonitor_clean l hmap, ihres]
        · rw [show removeEmptyObjects (JVal.arr l) = none from by
            unfold removeEmptyObjects
            rw [if_neg hra]]
          exact ihres
      | obj fs' => simp [JVal.isArr] at harr
      | null => simp [JVal.isArr] at harr
      | bool b => simp [JVal.isArr] at harr
      | num n => simp [JVal.isArr] at harr
      | str s => simp [JVal.isArr] at harr
    by_cases b2 : v.isObjectType = true
    · rw [cto_cons_objtype k v t b1 b2] at hfix
      simp only [JObj.cons.injEq] at hfix
      obtain ⟨-, hv, ht⟩ := hfix
      have ihres := compressTelemetryObj_clean t ht
      show compressTelemetryObj (removeEmptyObj (.cons k v t)) =
        removeEmptyObj (.cons k v t)
      simp only [removeEmptyObj]
      cases hr : removeEmptyObjects v with
      | some v' =>
        have b1' : ¬ (k = "monitors" ∧ v'.isArr = true) := by
          rw [removeEmptyObjects_isArr v v' hr]
          exact b1
        have b2' : v'.isObjectType = true := by
          rw [removeEmptyObjects_isObjectType v v' hr]
          exact b2
        rw [cto_cons_objtype k v' (removeEmptyObj t) b1' b2',
          compressMcpTelemetry_clean v hv v' hr, ihres]
      | none => exact ihres
    · rw [cto_cons_else k v t b1 b2] at hfix
      simp only [JObj.cons.injEq] at hfix
      obtain ⟨-, -, ht⟩ := hfix
      have ihres := compressTelemetryObj_clean t ht
      show compressTelemetryObj (removeEmptyObj (.cons k v t)) =
        removeEmptyObj (.cons k v t)
      simp only [removeEmptyObj]
      rw [removeEmptyObjects_scalar v b2]
      rw [cto_cons_else k v (removeEmptyObj t) b1 b2, ihres]

end

/-- Object-typed values are truthy. -/
theorem truthy_of_objectType : ∀ v : JVal, v.isObjectType = true →
    v.truthy = true
  | .obj _, _ => rfl
  | .arr _, _ => rfl
  | .null, h => by cases h
  | .bool b, h => by cases h
  | .num n, h => by cases h
  | .str s, h => by cases h

/-- C5 (amended): on well-formed outputs (every truthy
`StatusInformation` under a `legacyTextParameters` field is a string,
so the program does not throw) whose strings all deduplicate to
deduplication fixpoints, `compressMcpOutput` is idempotent — applying
the transform twice (with any tool names) equals applying it once —
and the claim's concrete metric object compresses to exactly
`{value: 50, attributes: {unit: "percent"}}`.  Unrestricted idempotence
fails: `deduplicateStatusInformation` can leave a second
message/conclusion marker pair behind (see the counterexample). -/
theorem claim_C5_compression_idempotent
    (output : JVal) (name name₂ : String)
    (_hwf : JVal.siWellFormed output = true)
    (hst : JVal.dedupStable output = true) :
    compressMcpOutput (compressMcpOutput output name) name₂ =
      compressMcpOutput output name
    ∧ compressMetric (.obj (JObj.ofList
        [("value", .num 50), ("name", .str "x"), ("type", .str "gauge"),
         ("collectTime", .num 1), ("previousCollectTime", .num 2),
         ("previousValue", .num 45), ("resetMetricsTime", .num 0),
         ("updated", .bool true),
         ("attributes", .obj (JObj.ofList [("unit", .str "percent")]))])) =
      .obj (JObj.ofList
        [("value", .num 50),
         ("attributes", .obj (JObj.ofList [("unit", .str "percent")]))]) := by
  refine ⟨?_, by decide⟩
  by_cases hguard : output.truthy = true ∧ output.isObjectType = true
  · cases hR : removeEmptyObjects (compressMcpTelemetry output) with
    | none =>
      have h1 : compressMcpOutput output name = .obj .nil := by
        unfold compressMcpOutput
        rw [if_neg (not_not_intro hguard), hR]
      rw [h1]
      rfl
    | some c =>
      have hcobj : c.isObjectType = true := by
        rw [removeEmptyObjects_isObjectType _ c hR,
          compressMcpTelemetry_isObjectType]
        exact hguard.2
      have hctruthy : c.truthy = true := truthy_of_objectType c hcobj
      have h1 : compressMcpOutput output name = c := by
        unfold compressMcpOutput
        rw [if_neg (not_not_intro hguard), hR]
        dsimp only
        rw [if_pos hctruthy]
      rw [h1]
      have hTc : compressMcpTelemetry c = c :=
        compressMcpTelemetry_clean (compressMcpTelemetry output)
          (compressMcpTelemetry_idem output hst) c hR
      have hRc : removeEmptyObjects c = some c :=
        removeEmptyObjects_idem _ c hR
      unfold compressMcpOutput
      rw [if_neg (not_not_intro ⟨hctruthy, hcobj⟩), hTc, hRc]
      dsimp only
      rw [if_pos hctruthy]
  · have h1 : compressMcpOutput output name = output := by
      unfold compressMcpOutput
      rw [if_pos hguard]
    rw [h1]
    unfold compressMcpOutput
    rw [if_pos hguard]

set_option maxRecDepth 10000 in
/-- C5, counterexample to the claim as frozen: on a monitor whose
`StatusInformation` holds two message/conclusion marker pairs, the
deduplication keeps a marker pair in its output, so a second
application of `compressMcpOutput` cuts the text again — the transform
is not idempotent on every output object. -/
theorem claim_C5_counterexample :
    compressMcpOutput (compressMcpOutput (.obj (.cons "monitors"
      (.arr (.cons (.obj (.cons "legacyTextParameters"
        (.obj (.cons "StatusInformation"
          (.str ("A" ++ messageMarker ++ "B" ++ conclusionMarker ++ "tail1" ++
            messageMarker ++ "B2" ++ conclusionMarker ++ "end")) .nil))
        .nil)) .nil)) .nil)) "t") "t" ≠
    compressMcpOutput (.obj (.cons "monitors"
      (.arr (.cons (.obj (.cons "legacyTextParameters"
        (.obj (.cons "StatusInformation"
          (.str ("A" ++ messageMarker ++ "B" ++ conclusionMarker ++ "tail1" ++
            messageMarker ++ "B2" ++ conclusionMarker ++ "end")) .nil))
        .nil)) .nil)) .nil)) "t" := by
  decide

/-- Concrete instance of the C5 amended theorem on a stable output. -/
theorem claim_C5_witness :
    compressMcpOutput (compressMcpOutput
        (.obj (.cons "a" (.str "x") .nil)) "tool1") "tool2" =
      compressMcpOutput (.obj (.cons "a" (.str "x") .nil)) "tool1"
    ∧ compressMetric (.obj (JObj.ofList
        [("value", .num 50), ("name", .str "x"), ("type", .str "gauge"),
         ("collectTime", .num 1), ("previousCollectTime", .num 2),
         ("previousValue", .num 45), ("resetMetricsTime", .num 0),
         ("updated", .bool true),
         ("attributes", .obj (JObj.ofList [("unit", .str "percent")]))])) =
      .obj (JObj.ofList
        [("value", .num 50),
         ("attributes", .obj (JObj.ofList [("unit", .str "percent")]))]) :=
  claim_C5_compression_idempotent (.obj (.cons "a" (.str "x") .nil))
    "tool1" "tool2" (by decide) (by decide)
